import Mathlib

/-!
# Recurrence date calculator (`internal/utils/nextdate.go`)

A shallow embedding of `utils.NextDate` and of the parts of the Go standard
library it calls (`time.ParseInLocation` with the layout `"20060102"`,
`Time.AddDate`, `Time.After`, `Time.Format`, `strings.TrimSpace`,
`strings.HasPrefix`, `strings.SplitN`, `strconv.Atoi`), followed by the proofs
of the claims C1 to C10 about it.

Modelling conventions:

* a Go `string` is a Lean `String`, a text of Unicode characters (Go strings
  that are valid UTF-8), inspected through its list of characters;
* a `time.Time` is a wall-clock instant: whole seconds since
  0001-01-01T00:00:00 UTC (the epoch of Go's internal representation) and a
  nanosecond part.  Go's calendar arithmetic runs on `uint64` seconds counted
  from an absolute epoch that lies a multiple of 400 years before year 1; here
  the same cycle arithmetic runs on `Int` with floor division, counted from
  year 1.  Seconds are unbounded integers: the wrap-around of Go's 64-bit
  second count, some 292 billion years away from year 1, is outside the model;
* locations are not modelled: `NextDate` works in UTC throughout, and `Time.In`
  does not change the instant;
* Go's `int` values are `Int`; the only place where the 64-bit range is
  observable on this path is `strconv.Atoi`, which reports a range error;
* a Go `error` is a value of the type `Err`, one constructor for each
  `errors.New` of `NextDate` and one for `*time.ParseError`.
-/

namespace Utils

/-! ## `time`: calendar arithmetic -/

/-- Go `time.secondsPerDay`. -/
def secondsPerDay : Int := 86400

/-- Go `time.daysPer400Years`. -/
def daysPer400Years : Int := 146097

/-- Go `time.daysPer100Years`. -/
def daysPer100Years : Int := 36524

/-- Go `time.daysPer4Years`. -/
def daysPer4Years : Int := 1461

/-- Go `time.isLeap`. -/
def isLeap (year : Int) : Bool :=
  year % 4 == 0 && (year % 100 != 0 || year % 400 == 0)

/-- Go `time.daysBefore`: `daysBefore i` is the number of days in a non-leap
year before month `i + 1`; the table has an entry for one past December. -/
def daysBefore (i : Int) : Int :=
  [0, 31, 59, 90, 120, 151, 181, 212, 243, 273, 304, 334, 365].getD i.toNat 0

/-- Go `time.daysIn`. -/
def daysIn (m : Int) (year : Int) : Int :=
  if m == 2 && isLeap year then 29 else daysBefore m - daysBefore (m - 1)

/-- Go `time.norm`: carries `lo` into `hi` so that `0 ≤ lo < base`. -/
def norm (hi lo base : Int) : Int × Int :=
  let (hi1, lo1) :=
    if lo < 0 then
      let n := (-lo - 1) / base + 1
      (hi - n, lo + n * base)
    else (hi, lo)
  if lo1 ≥ base then
    let n := lo1 / base
    (hi1 + n, lo1 - n * base)
  else (hi1, lo1)

/-- Go `time.daysSinceEpoch`, counted from 1 January of year 1. -/
def daysSinceEpoch (year : Int) : Int :=
  let y := year - 1
  let n400 := y / 400
  let y1 := y - 400 * n400
  let n100 := y1 / 100
  let y2 := y1 - 100 * n100
  let n4 := y2 / 4
  let y3 := y2 - 4 * n4
  daysPer400Years * n400 + daysPer100Years * n100 + daysPer4Years * n4 + 365 * y3

/-- An instant on the wall clock: `sec` whole seconds since
0001-01-01T00:00:00 UTC and `nsec` nanoseconds within the second. -/
structure Time where
  sec : Int
  nsec : Nat
  deriving DecidableEq

/-- Go `time.Date` in the location UTC. -/
def Date (year month day hour min sec nsec : Int) : Time :=
  let (year1, m) := norm year (month - 1) 12
  let month1 := m + 1
  let (sec1, nsec1) := norm sec nsec 1000000000
  let (min1, sec2) := norm min sec1 60
  let (hour1, min2) := norm hour min1 60
  let (day1, hour2) := norm day hour1 24
  let d0 := daysSinceEpoch year1 + daysBefore (month1 - 1)
  let d1 := if isLeap year1 && month1 ≥ 3 then d0 + 1 else d0
  let d := d1 + (day1 - 1)
  { sec := d * secondsPerDay + (hour2 * 3600 + min2 * 60 + sec2), nsec := nsec1.toNat }

/-- Go `time.absDate`, the year part: the year of the day numbered `d` (days
since 1 January of year 1) and the zero-based day within that year. -/
def absYear (d : Int) : Int × Int :=
  let n400 := d / daysPer400Years
  let y0 := 400 * n400
  let d0 := d - daysPer400Years * n400
  let n100 := d0 / daysPer100Years
  let n100 := n100 - n100 / 4
  let y1 := y0 + 100 * n100
  let d1 := d0 - daysPer100Years * n100
  let n4 := d1 / daysPer4Years
  let y2 := y1 + 4 * n4
  let d2 := d1 - daysPer4Years * n4
  let n := d2 / 365
  let n := n - n / 4
  let y3 := y2 + n
  let d3 := d2 - 365 * n
  (y3 + 1, d3)

/-- Go `time.absDate`, the month part: month and day of month of the zero-based
day `yday` of `year`. -/
def absMonthDay (year yday : Int) : Int × Int :=
  if isLeap year && yday == 31 + 29 - 1 then (2, 29)
  else
    let day := if isLeap year && yday > 31 + 29 - 1 then yday - 1 else yday
    let month := day / 31
    let endDay := daysBefore (month + 1)
    let (month1, begin) :=
      if day ≥ endDay then (month + 1, endDay) else (month, daysBefore month)
    (month1 + 1, day - begin + 1)

/-- Go `Time.Date`: year, month and day of the instant. -/
def Time.date (t : Time) : Int × Int × Int :=
  let (year, yday) := absYear (t.sec / secondsPerDay)
  let (month, day) := absMonthDay year yday
  (year, month, day)

/-- Go `Time.Year`. -/
def Time.Year (t : Time) : Int := t.date.1

/-- Go `Time.Month`. -/
def Time.Month (t : Time) : Int := t.date.2.1

/-- Go `Time.Day`. -/
def Time.Day (t : Time) : Int := t.date.2.2

/-- Go `Time.Clock`: hour, minute and second within the day. -/
def Time.Clock (t : Time) : Int × Int × Int :=
  let s := t.sec % secondsPerDay
  let hour := s / 3600
  let s1 := s - hour * 3600
  let min := s1 / 60
  (hour, min, s1 - min * 60)

/-- Go `Time.AddDate`. -/
def Time.AddDate (t : Time) (years months days : Int) : Time :=
  let (year, month, day) := t.date
  let (hour, min, sec) := t.Clock
  Date (year + years) (month + months) (day + days) hour min sec (t.nsec : Int)

/-- Go `Time.After` for times without a monotonic clock reading. -/
def Time.After (t u : Time) : Bool :=
  decide (t.sec > u.sec) || (t.sec == u.sec && decide (t.nsec > u.nsec))

/-- Go `Time.In`: the same instant viewed in another location. -/
def Time.In (t : Time) : Time := t

/-- Go `time.appendInt`: the decimal digits of `x`, zero-padded to `width`. -/
def appendInt (x : Int) (width : Nat) : List Char :=
  let u := x.natAbs
  let sign := if x < 0 then ['-'] else []
  if width = 2 ∧ u < 100 then
    sign ++ [Nat.digitChar (u / 10), Nat.digitChar (u % 10)]
  else if width = 4 ∧ u < 10000 then
    sign ++ [Nat.digitChar (u / 1000), Nat.digitChar (u / 100 % 10),
      Nat.digitChar (u / 10 % 10), Nat.digitChar (u % 10)]
  else
    let ds := Nat.toDigits 10 u
    sign ++ (List.replicate (width - ds.length) '0' ++ ds)

/-- The output of the layout `"20060102"` for a given year, month and day:
`stdLongYear`, `stdZeroMonth`, `stdZeroDay`. -/
def formatDate (year month day : Int) : String :=
  String.mk (appendInt year 4 ++ (appendInt month 2 ++ appendInt day 2))

/-- Go `Time.Format` with the layout `"20060102"`. -/
def Time.Format (t : Time) : String :=
  formatDate t.Year t.Month t.Day

/-- Go `time.isDigit`: is the character at index `i` a decimal digit. -/
def isDigit (s : List Char) (i : Nat) : Bool :=
  match s.get? i with
  | some c => decide ('0' ≤ c) && decide (c ≤ '9')
  | none => false

/-- Value of a decimal digit character. -/
def digitVal (c : Char) : Int := (c.toNat : Int) - 48

/-- Go `time.leadingInt`: consumes the leading decimal digits of `s`, returns
their value on top of `x` and the rest of the string.  (Its overflow branch
needs more than eighteen digits and is not reachable from a four-character
field.) -/
def leadingInt : List Char → Int → Int × List Char
  | [], x => (x, [])
  | c :: cs, x =>
    if decide ('0' ≤ c) && decide (c ≤ '9') then leadingInt cs (x * 10 + digitVal c)
    else (x, c :: cs)

/-- Go `time.atoi`: an optional sign and then digits only. -/
def atoi (s : List Char) : Option Int :=
  let (neg, s1) :=
    match s with
    | c :: cs => if c = '-' ∨ c = '+' then (decide (c = '-'), cs) else (false, s)
    | [] => (false, s)
  let (q, rem) := leadingInt s1 0
  if rem.length > 0 then none else some (if neg then -q else q)

/-- Go `time.getnum`: a one- or two-digit number at the front of `s`; with
`fixed`, exactly two digits. -/
def getnum (s : List Char) (fixed : Bool) : Option (Int × List Char) :=
  if !isDigit s 0 then none
  else if !isDigit s 1 then
    if fixed then none else some (digitVal (s.getD 0 '0'), s.drop 1)
  else some (digitVal (s.getD 0 '0') * 10 + digitVal (s.getD 1 '0'), s.drop 2)

/-- Errors returned by `NextDate`. -/
inductive Err
  /-- The rule is blank, "поле repeat пустое" (spec: `InvalidRule`). -/
  | emptyRepeat
  /-- The `*time.ParseError` of the base date (spec: `InvalidBaseDate`). -/
  | parseError
  /-- The message "некорректный формат: не указан интервал дней" (spec: `InvalidInterval`). -/
  | missingInterval
  /-- The message "некорректный интервал дней" (spec: `InvalidInterval`). -/
  | invalidInterval
  /-- The message "интервал дней превышает допустимый предел (400)" (spec: `InvalidInterval`). -/
  | intervalTooLarge
  /-- The message "неподдерживаемый формат repeat" (spec: `InvalidRule`). -/
  | unsupportedRepeat
  deriving DecidableEq

/-- Go `time.ParseInLocation("20060102", value, time.UTC)`: the layout is the
three fields `stdLongYear`, `stdZeroMonth`, `stdZeroDay`; every failure is a
`*time.ParseError`. -/
def ParseInLocation (value : List Char) : Except Err Time :=
  -- stdLongYear
  if value.length < 4 || !isDigit value 0 then .error .parseError
  else
    let p := value.take 4
    let value := value.drop 4
    match atoi p with
    | none => .error .parseError
    | some year =>
      -- stdZeroMonth
      match getnum value true with
      | none => .error .parseError
      | some (month, value) =>
        if month ≤ 0 || 12 < month then .error .parseError
        else
          -- stdZeroDay
          match getnum value true with
          | none => .error .parseError
          | some (day, value) =>
            -- the layout is used up: no text may remain
            if value.length ≠ 0 then .error .parseError
            -- validate the day of the month
            else if day < 1 || day > daysIn month year then .error .parseError
            else .ok (Date year month day 0 0 0 0)

/-! ## `strings`, `unicode`, `strconv` -/

/-- Go `unicode.IsSpace`. -/
def IsSpace (r : Char) : Bool :=
  let n := r.toNat
  if n ≤ 0xFF then
    n == 0x09 || n == 0x0A || n == 0x0B || n == 0x0C || n == 0x0D || n == 0x20 ||
      n == 0x85 || n == 0xA0
  else
    n == 0x1680 || (decide (0x2000 ≤ n) && decide (n ≤ 0x200A)) || n == 0x2028 ||
      n == 0x2029 || n == 0x202F || n == 0x205F || n == 0x3000

/-- Go `strings.TrimSpace`: leading and trailing white space removed. -/
def TrimSpace (s : List Char) : List Char :=
  ((s.dropWhile IsSpace).reverse.dropWhile IsSpace).reverse

/-- Go `strings.HasPrefix`. -/
def HasPrefix (s pre : List Char) : Bool := pre.isPrefixOf s

/-- The loop of Go `strings.genSplit` for a one-character separator: at most
`k` cuts at the separator, from the left. -/
def genSplit (sep : Char) : Nat → List Char → List (List Char)
  | 0, s => [s]
  | k + 1, s =>
    match s.findIdx? (fun c => c == sep) with
    | none => [s]
    | some m => s.take m :: genSplit sep k (s.drop (m + 1))

/-- Go `strings.SplitN(s, sep, n)` for a one-character separator and `n ≥ 0`. -/
def SplitN (s : List Char) (sep : Char) (n : Nat) : List (List Char) :=
  if n = 0 then [] else genSplit sep (min n (s.length + 1) - 1) s

/-- Decimal digits only, accumulated on top of `x`; `none` at a character that
is not a digit. -/
def parseDigits : List Char → Int → Option Int
  | [], x => some x
  | c :: cs, x =>
    if decide ('0' ≤ c) && decide (c ≤ '9') then parseDigits cs (x * 10 + digitVal c)
    else none

/-- Go `strconv.Atoi` on a 64-bit platform; `none` stands for a returned error
(syntax error: empty, sign only, or a character that is not a digit; range
error: the value does not fit `int`). -/
def Atoi (s : List Char) : Option Int :=
  match s with
  | [] => none
  | c :: cs =>
    let ds := if c = '-' ∨ c = '+' then cs else s
    if ds.length < 1 then none
    else
      match parseDigits ds 0 with
      | none => none
      | some n =>
        let v := if c = '-' then -n else n
        if v < -9223372036854775808 ∨ 9223372036854775807 < v then none else some v

/-! ## Calendar vocabulary used in the statements -/

/-- Length of a year in days. -/
def yearLen (year : Int) : Int := if isLeap year then 366 else 365

/-- Zero-based day of the year of day `d` of month `m`, as `Date` counts it. -/
def ydayOf (year m d : Int) : Int :=
  daysBefore (m - 1) + (if isLeap year && decide (m ≥ 3) then 1 else 0) + (d - 1)

/-- The month search of `absDate` on a day `x` counted in a 365-day year. -/
def monthDayFlat (x : Int) : Int × Int :=
  let month := x / 31
  let endDay := daysBefore (month + 1)
  let (month1, begin) :=
    if x ≥ endDay then (month + 1, endDay) else (month, daysBefore month)
  (month1 + 1, x - begin + 1)

/-- Day number (days since 1 January of year 1) of day `d` of month `m` of `year`. -/
def dayNumberOf (year m d : Int) : Int := daysSinceEpoch year + ydayOf year m d

/-- A real calendar date: month 1..12 and a day within that month of that year. -/
def ValidYMD (year m d : Int) : Prop := (1 ≤ m ∧ m ≤ 12) ∧ (1 ≤ d ∧ d ≤ daysIn m year)

instance (year m d : Int) : Decidable (ValidYMD year m d) := by
  unfold ValidYMD
  infer_instance

/-- The calendar day of an instant, as a count of days since 1 January of
year 1 (UTC). -/
def Time.dayNumber (t : Time) : Int := t.sec / secondsPerDay

/-- The instant 00:00:00 UTC of the day numbered `n`. -/
def midnight (n : Int) : Time := { sec := n * 86400, nsec := 0 }

/-- Number of days of a month of the Gregorian calendar: thirty days have
April, June, September and November, February has 28 and in a leap year 29
(a year divisible by 4, but by 100 only when also by 400), the rest 31. -/
def monthLength (year month : Int) : Int :=
  if month = 2 then
    if year % 4 = 0 ∧ (year % 100 ≠ 0 ∨ year % 400 = 0) then 29 else 28
  else if month = 4 ∨ month = 6 ∨ month = 9 ∨ month = 11 then 30
  else 31

/-- A decimal digit `0`..`9`. -/
def isDecimalDigit (c : Char) : Bool := decide ('0' ≤ c) && decide (c ≤ '9')

/-- The calendar date written by a string: exactly eight decimal digits
`YYYYMMDD` with month 1..12 and a day that exists in that month of that year;
`none` for every other string. -/
def dateOfString (s : String) : Option (Int × Int × Int) :=
  match s.data with
  | [y1, y2, y3, y4, m1, m2, d1, d2] =>
    if [y1, y2, y3, y4, m1, m2, d1, d2].all isDecimalDigit then
      let year := 1000 * digitVal y1 + 100 * digitVal y2 + 10 * digitVal y3 + digitVal y4
      let month := 10 * digitVal m1 + digitVal m2
      let day := 10 * digitVal d1 + digitVal d2
      if 1 ≤ month ∧ month ≤ 12 ∧ 1 ≤ day ∧ day ≤ monthLength year month then
        some (year, month, day)
      else none
    else none
  | _ => none

/-- Value of a text of decimal digits, most significant digit first. -/
def decimalValue (cs : List Char) : Int := cs.foldl (fun x c => x * 10 + digitVal c) 0

/-- The calendar date written by a string in the order year, month, day: only
decimal digits, four or more for the year, then two for the month and two for
the day, with month 1..12 and a day that exists in that month of that year;
`none` for every other string. -/
def writtenDate (s : String) : Option (Int × Int × Int) :=
  let cs := s.data
  if 8 ≤ cs.length ∧ cs.all isDecimalDigit = true then
    let year := decimalValue (cs.take (cs.length - 4))
    let month := decimalValue ((cs.drop (cs.length - 4)).take 2)
    let day := decimalValue (cs.drop (cs.length - 2))
    if 1 ≤ month ∧ month ≤ 12 ∧ 1 ≤ day ∧ day ≤ monthLength year month then
      some (year, month, day)
    else none
  else none

/-! ## Calendar lemmas

The two advance loops of `NextDate` are defined by well-founded recursion on the
distance to the reference; the facts about `Date` and `AddDate` that their
termination rests on come first. -/

theorem norm_12 (hi lo : Int) : norm hi lo 12 = (hi + lo / 12, lo % 12) := by
  unfold norm
  by_cases h : lo < 0
  · simp only [h, if_true]
    split_ifs <;> simp only [Prod.mk.injEq] <;> omega
  · simp only [h, if_false]
    split_ifs <;> refine Prod.ext ?_ ?_ <;> dsimp only <;> omega

theorem norm_24 (hi lo : Int) : norm hi lo 24 = (hi + lo / 24, lo % 24) := by
  unfold norm
  by_cases h : lo < 0
  · simp only [h, if_true]
    split_ifs <;> simp only [Prod.mk.injEq] <;> omega
  · simp only [h, if_false]
    split_ifs <;> refine Prod.ext ?_ ?_ <;> dsimp only <;> omega

theorem norm_60 (hi lo : Int) : norm hi lo 60 = (hi + lo / 60, lo % 60) := by
  unfold norm
  by_cases h : lo < 0
  · simp only [h, if_true]
    split_ifs <;> simp only [Prod.mk.injEq] <;> omega
  · simp only [h, if_false]
    split_ifs <;> refine Prod.ext ?_ ?_ <;> dsimp only <;> omega

theorem norm_nsec (hi lo : Int) :
    norm hi lo 1000000000 = (hi + lo / 1000000000, lo % 1000000000) := by
  unfold norm
  by_cases h : lo < 0
  · simp only [h, if_true]
    split_ifs <;> simp only [Prod.mk.injEq] <;> omega
  · simp only [h, if_false]
    split_ifs <;> refine Prod.ext ?_ ?_ <;> dsimp only <;> omega

/-- The year numbered `400 q + 100 c + 4 f + n + 1` starts
`146097 q + 36524 c + 1461 f + 365 n` days after the epoch. -/
theorem daysSinceEpoch_decomp (q c f n : Int) (hc : 0 ≤ c ∧ c ≤ 3) (hf : 0 ≤ f ∧ f ≤ 24)
    (hn : 0 ≤ n ∧ n ≤ 3) :
    daysSinceEpoch (400 * q + 100 * c + 4 * f + n + 1)
      = 146097 * q + 36524 * c + 1461 * f + 365 * n := by
  simp only [daysSinceEpoch, daysPer400Years, daysPer100Years, daysPer4Years]
  have e1 : (400 * q + 100 * c + 4 * f + n + 1 - 1) / 400 = q := by omega
  rw [e1]
  have e2 : (400 * q + 100 * c + 4 * f + n + 1 - 1 - 400 * q) / 100 = c := by omega
  rw [e2]
  have e3 : (400 * q + 100 * c + 4 * f + n + 1 - 1 - 400 * q - 100 * c) / 4 = f := by omega
  rw [e3]
  omega

theorem isLeap_decomp (q c f n : Int) (hc : 0 ≤ c ∧ c ≤ 3) (hf : 0 ≤ f ∧ f ≤ 24)
    (hn : 0 ≤ n ∧ n ≤ 3) :
    isLeap (400 * q + 100 * c + 4 * f + n + 1) = decide (n = 3 ∧ (f < 24 ∨ c = 3)) := by
  simp only [isLeap]
  rw [Bool.eq_iff_iff]
  simp only [Bool.and_eq_true, Bool.or_eq_true, beq_iff_eq, bne_iff_ne, ne_eq, decide_eq_true_eq]
  omega

theorem year_decomp (year : Int) :
    ∃ q c f n : Int, year = 400 * q + 100 * c + 4 * f + n + 1 ∧
      (0 ≤ c ∧ c ≤ 3) ∧ (0 ≤ f ∧ f ≤ 24) ∧ (0 ≤ n ∧ n ≤ 3) :=
  ⟨(year - 1) / 400, (year - 1) % 400 / 100, (year - 1) % 100 / 4, (year - 1) % 4,
    by omega, by omega, by omega, by omega⟩

theorem absYear_decomp (d : Int) :
    ∃ q c f n : Int, (absYear d).1 = 400 * q + 100 * c + 4 * f + n + 1 ∧
      (absYear d).2 = d - 146097 * q - 36524 * c - 1461 * f - 365 * n ∧
      (0 ≤ c ∧ c ≤ 3) ∧ (0 ≤ f ∧ f ≤ 24) ∧ (0 ≤ n ∧ n ≤ 3) ∧
      0 ≤ (absYear d).2 ∧
      (absYear d).2 < (if n = 3 ∧ (f < 24 ∨ c = 3) then 366 else 365) := by
  simp only [absYear, daysPer400Years, daysPer100Years, daysPer4Years]
  generalize hq : d / 146097 = q
  generalize hd0 : d - 146097 * q = d0
  have h0 : 0 ≤ d0 ∧ d0 < 146097 := by omega
  generalize hr : d0 / 36524 = r
  have hrb : 0 ≤ r ∧ r ≤ 4 := by omega
  generalize hc : r - r / 4 = c
  have hcb : 0 ≤ c ∧ c ≤ 3 := by omega
  generalize hd1 : d0 - 36524 * c = d1
  have h1 : 0 ≤ d1 ∧ d1 ≤ 36524 ∧ (c < 3 → d1 < 36524) := by omega
  generalize hn4 : d1 / 1461 = f
  have hn4b : 0 ≤ f ∧ f ≤ 24 := by omega
  generalize hd2 : d1 - 1461 * f = d2
  have h2 : 0 ≤ d2 ∧ d2 ≤ 1460 ∧ (c < 3 → f = 24 → d2 < 1460) := by omega
  generalize hs : d2 / 365 = s
  have hsb : 0 ≤ s ∧ s ≤ 4 := by omega
  generalize hn : s - s / 4 = n
  have hnb : 0 ≤ n ∧ n ≤ 3 := by omega
  refine ⟨q, c, f, n, by omega, by omega, hcb, hn4b, hnb, by omega, ?_⟩
  split <;> omega

/-- Days → year → days. -/
theorem absYear_spec (d : Int) :
    daysSinceEpoch (absYear d).1 + (absYear d).2 = d ∧
      0 ≤ (absYear d).2 ∧ (absYear d).2 < yearLen (absYear d).1 := by
  obtain ⟨q, c, f, n, h1, h2, hc, hf, hn, h3, h4⟩ := absYear_decomp d
  rw [h1, daysSinceEpoch_decomp q c f n hc hf hn, yearLen, isLeap_decomp q c f n hc hf hn]
  refine ⟨by omega, h3, ?_⟩
  by_cases hl : n = 3 ∧ (f < 24 ∨ c = 3)
  · rw [if_pos hl] at h4; simp only [hl, decide_True, if_true]; rw [h2] at h4 ⊢; exact h4
  · rw [if_neg hl] at h4; simp only [hl, decide_False]; rw [h2] at h4 ⊢; simpa using h4

/-- Year → days → year. -/
theorem absYear_daysSinceEpoch (year yd : Int) (h0 : 0 ≤ yd) (h1 : yd < yearLen year) :
    absYear (daysSinceEpoch year + yd) = (year, yd) := by
  obtain ⟨q, c, f, n, hy, hc, hf, hn⟩ := year_decomp year
  rw [yearLen, hy, isLeap_decomp q c f n hc hf hn] at h1
  rw [hy, daysSinceEpoch_decomp q c f n hc hf hn]
  have h1b : yd < 366 ∧ (¬ (n = 3 ∧ (f < 24 ∨ c = 3)) → yd < 365) := by
    by_cases hl : n = 3 ∧ (f < 24 ∨ c = 3)
    · simp only [hl, decide_True, if_true] at h1; exact ⟨h1, fun h => absurd hl h⟩
    · simp only [hl, decide_False] at h1
      have : yd < 365 := by simpa using h1
      exact ⟨by omega, fun _ => this⟩
  simp only [absYear, daysPer400Years, daysPer100Years, daysPer4Years]
  generalize hD : 146097 * q + 36524 * c + 1461 * f + 365 * n + yd = D
  have e1 : D / 146097 = q := by omega
  rw [e1]
  generalize hd0 : D - 146097 * q = d0
  generalize hr : d0 / 36524 = r
  have hr1 : r = c ∨ (r = 4 ∧ c = 3) := by omega
  have e2 : r - r / 4 = c := by omega
  rw [e2]
  generalize hd1 : d0 - 36524 * c = d1
  have e3 : d1 / 1461 = f := by omega
  rw [e3]
  generalize hd2 : d1 - 1461 * f = d2
  generalize hs : d2 / 365 = s
  have hs1 : s = n ∨ (s = 4 ∧ n = 3) := by omega
  have e4 : s - s / 4 = n := by omega
  rw [e4]
  refine Prod.ext rfl ?_
  dsimp only
  omega

theorem daysSinceEpoch_succ (year : Int) :
    daysSinceEpoch (year + 1) = daysSinceEpoch year + yearLen year := by
  simp only [daysSinceEpoch, daysPer400Years, daysPer100Years, daysPer4Years, yearLen, isLeap]
  split_ifs with h <;>
    simp only [Bool.and_eq_true, Bool.or_eq_true, beq_iff_eq, bne_iff_ne, ne_eq] at h <;> omega

theorem absMonthDay_eq (year yd : Int) :
    absMonthDay year yd =
      if isLeap year && yd == 31 + 29 - 1 then (2, 29)
      else monthDayFlat (if isLeap year && decide (yd > 31 + 29 - 1) then yd - 1 else yd) := rfl

theorem daysBefore_vals :
    daysBefore 0 = 0 ∧ daysBefore 1 = 31 ∧ daysBefore 2 = 59 ∧ daysBefore 3 = 90 ∧
    daysBefore 4 = 120 ∧ daysBefore 5 = 151 ∧ daysBefore 6 = 181 ∧ daysBefore 7 = 212 ∧
    daysBefore 8 = 243 ∧ daysBefore 9 = 273 ∧ daysBefore 10 = 304 ∧ daysBefore 11 = 334 ∧
    daysBefore 12 = 365 := by decide

theorem month_estimate (x : Int) (h0 : 0 ≤ x) (h1 : x < 365) :
    ∃ m : Int, (1 ≤ m ∧ m ≤ 12) ∧ (daysBefore (m - 1) ≤ x ∧ x < daysBefore m) ∧
      monthDayFlat x = (m, x - daysBefore (m - 1) + 1) := by
  obtain ⟨v0, v1, v2, v3, v4, v5, v6, v7, v8, v9, v10, v11, v12⟩ := daysBefore_vals
  have hq : 0 ≤ x / 31 ∧ x / 31 ≤ 11 := by omega
  unfold monthDayFlat
  generalize hk : x / 31 = k at hq
  obtain ⟨hk0, hk1⟩ := hq
  interval_cases k <;> norm_num only [v0, v1, v2, v3, v4, v5, v6, v7, v8, v9, v10, v11, v12]
  all_goals
    split_ifs with hc
    · first
      | (exfalso; omega)
      | (refine ⟨_, ?_, ?_, rfl⟩
         · constructor <;> decide
         · norm_num only [v0, v1, v2, v3, v4, v5, v6, v7, v8, v9, v10, v11, v12]
           omega)
    · refine ⟨_, ?_, ?_, rfl⟩
      · constructor <;> decide
      · norm_num only [v0, v1, v2, v3, v4, v5, v6, v7, v8, v9, v10, v11, v12]
        omega

/-- Facts about the table once the month is known. -/
theorem daysBefore_bounds (m : Int) (hm : 1 ≤ m ∧ m ≤ 12) :
    (m ≤ 2 → daysBefore m ≤ 59) ∧ (3 ≤ m → 59 ≤ daysBefore (m - 1)) ∧
    (m = 2 → daysBefore (m - 1) = 31 ∧ daysBefore m = 59) ∧
    28 ≤ daysBefore m - daysBefore (m - 1) ∧ daysBefore m - daysBefore (m - 1) ≤ 31 ∧
    0 ≤ daysBefore (m - 1) ∧ daysBefore m ≤ 365 := by
  obtain ⟨v0, v1, v2, v3, v4, v5, v6, v7, v8, v9, v10, v11, v12⟩ := daysBefore_vals
  obtain ⟨hm1, hm2⟩ := hm
  interval_cases m <;>
    norm_num only [v0, v1, v2, v3, v4, v5, v6, v7, v8, v9, v10, v11, v12] <;> simp

theorem absMonthDay_spec (year yd : Int) (h0 : 0 ≤ yd) (h1 : yd < yearLen year) :
    (1 ≤ (absMonthDay year yd).1 ∧ (absMonthDay year yd).1 ≤ 12) ∧
    (1 ≤ (absMonthDay year yd).2 ∧
      (absMonthDay year yd).2 ≤ daysIn (absMonthDay year yd).1 year) ∧
    ydayOf year (absMonthDay year yd).1 (absMonthDay year yd).2 = yd := by
  unfold yearLen at h1
  rw [absMonthDay_eq]
  unfold ydayOf daysIn
  cases hl : isLeap year
  · rw [hl] at h1
    have h1 : yd < 365 := by simpa using h1
    obtain ⟨m, hm, hx, he⟩ := month_estimate yd h0 h1
    obtain ⟨b1, b2, b3, b4, b5, b6, b7⟩ := daysBefore_bounds m hm
    simp only [Bool.false_and, Bool.false_eq_true, if_false, he, Bool.and_false]
    refine ⟨hm, ⟨by omega, by omega⟩, by omega⟩
  · rw [hl] at h1
    have h1 : yd < 366 := by simpa using h1
    by_cases h59 : yd = 59
    · subst h59
      obtain ⟨v0, v1, v2, v3, v4, v5, v6, v7, v8, v9, v10, v11, v12⟩ := daysBefore_vals
      norm_num [v1]
    · by_cases hgt : yd > 59
      · obtain ⟨m, hm, hx, he⟩ := month_estimate (yd - 1) (by omega) (by omega)
        obtain ⟨b1, b2, b3, b4, b5, b6, b7⟩ := daysBefore_bounds m hm
        have hm3 : 3 ≤ m := by
          by_contra hc
          have := b1 (by omega)
          omega
        have hm2 : ¬ (m = 2) := by omega
        have e1 : (yd == 31 + 29 - 1) = false := by simpa using h59
        have e2 : decide (yd > 31 + 29 - 1) = true := by simpa using hgt
        simp only [e1, e2, Bool.true_and, Bool.and_false, Bool.false_eq_true, if_false, if_true,
          he, beq_iff_eq, hm2, decide_eq_true_eq, ge_iff_le, hm3, Bool.and_true]
        refine ⟨hm, ⟨by omega, by omega⟩, by omega⟩
      · obtain ⟨m, hm, hx, he⟩ := month_estimate yd (by omega) (by omega)
        obtain ⟨b1, b2, b3, b4, b5, b6, b7⟩ := daysBefore_bounds m hm
        have hm3 : ¬ (3 ≤ m) := by
          intro hc
          have := b2 hc
          omega
        have e1 : (yd == 31 + 29 - 1) = false := by simpa using h59
        have e2 : decide (yd > 31 + 29 - 1) = false := by simpa using hgt
        simp only [e1, e2, Bool.true_and, Bool.and_false, Bool.false_eq_true, if_false,
          he, beq_iff_eq, decide_eq_true_eq, ge_iff_le, hm3, Bool.and_true]
        refine ⟨hm, ⟨by omega, ?_⟩, by omega⟩
        by_cases hm2 : m = 2
        · have := b3 hm2
          subst hm2
          simp only [if_true]
          omega
        · simp only [hm2, if_false]
          omega

theorem month_unique (m n x : Int) (hm : 1 ≤ m ∧ m ≤ 12) (hn : 1 ≤ n ∧ n ≤ 12)
    (h1 : daysBefore (m - 1) ≤ x ∧ x < daysBefore m)
    (h2 : daysBefore (n - 1) ≤ x ∧ x < daysBefore n) : m = n := by
  obtain ⟨v0, v1, v2, v3, v4, v5, v6, v7, v8, v9, v10, v11, v12⟩ := daysBefore_vals
  obtain ⟨hm1, hm2⟩ := hm
  obtain ⟨hn1, hn2⟩ := hn
  interval_cases m <;> interval_cases n <;>
    norm_num only [v0, v1, v2, v3, v4, v5, v6, v7, v8, v9, v10, v11, v12] at h1 h2 ⊢ <;> omega

theorem ydayOf_range (year m d : Int) (h : ValidYMD year m d) :
    0 ≤ ydayOf year m d ∧ ydayOf year m d < yearLen year := by
  obtain ⟨hm, hd1, hd2⟩ := h
  obtain ⟨b1, b2, b3, b4, b5, b6, b7⟩ := daysBefore_bounds m hm
  unfold daysIn at hd2
  unfold ydayOf yearLen
  cases hl : isLeap year
  · simp only [hl, Bool.and_false, Bool.false_and, Bool.false_eq_true, if_false] at hd2 ⊢
    omega
  · simp only [hl, Bool.and_true, Bool.true_and, if_true, beq_iff_eq, decide_eq_true_eq] at hd2 ⊢
    by_cases hm2 : m = 2
    · have := b3 hm2
      subst hm2
      simp only [if_true] at hd2
      have e : ¬ ((2 : Int) ≥ 3) := by omega
      simp only [e, if_false]
      omega
    · simp only [hm2, if_false] at hd2
      split_ifs <;> omega

theorem absMonthDay_ydayOf (year m d : Int) (h : ValidYMD year m d) :
    absMonthDay year (ydayOf year m d) = (m, d) := by
  have hr := ydayOf_range year m d h
  obtain ⟨hm, hd1, hd2⟩ := h
  obtain ⟨b1, b2, b3, b4, b5, b6, b7⟩ := daysBefore_bounds m hm
  unfold daysIn at hd2
  rw [absMonthDay_eq]
  unfold yearLen at hr
  unfold ydayOf at hr ⊢
  cases hl : isLeap year
  · simp only [hl, Bool.and_false, Bool.false_and, Bool.false_eq_true, if_false] at hd2 hr ⊢
    obtain ⟨n, hn, hx, he⟩ := month_estimate (daysBefore (m - 1) + 0 + (d - 1)) hr.1 hr.2
    have hmn : m = n := month_unique m n _ hm hn ⟨by omega, by omega⟩ hx
    subst hmn
    rw [he]
    refine Prod.ext rfl ?_
    dsimp only
    omega
  · simp only [hl, Bool.and_true, Bool.true_and, if_true, beq_iff_eq, decide_eq_true_eq] at hd2 hr ⊢
    by_cases hm3 : m ≥ 3
    · have hm2 : ¬ (m = 2) := by omega
      have := b2 hm3
      simp only [hm2, if_false] at hd2
      simp only [hm3, if_true] at hr ⊢
      have e1 : ¬ (daysBefore (m - 1) + 1 + (d - 1) = 31 + 29 - 1) := by omega
      have e2 : daysBefore (m - 1) + 1 + (d - 1) > 31 + 29 - 1 := by omega
      simp only [e1, e2, if_false, if_true]
      obtain ⟨n, hn, hx, he⟩ := month_estimate (daysBefore (m - 1) + 1 + (d - 1) - 1)
        (by omega) (by omega)
      have hmn : m = n := month_unique m n _ hm hn ⟨by omega, by omega⟩ hx
      subst hmn
      rw [he]
      refine Prod.ext rfl ?_
      dsimp only
      omega
    · simp only [hm3, if_false] at hr ⊢
      by_cases hm2 : m = 2
      · have := b3 hm2
        subst hm2
        simp only [if_true] at hd2
        by_cases hd : d = 29
        · subst hd
          have e1 : daysBefore (2 - 1) + 0 + (29 - 1) = 31 + 29 - 1 := by omega
          simp only [e1, if_true]
        · have e1 : ¬ (daysBefore (2 - 1) + 0 + (d - 1) = 31 + 29 - 1) := by omega
          have e2 : ¬ (daysBefore (2 - 1) + 0 + (d - 1) > 31 + 29 - 1) := by omega
          simp only [e1, e2, if_false]
          obtain ⟨n, hn, hx, he⟩ := month_estimate (daysBefore (2 - 1) + 0 + (d - 1))
            (by omega) (by omega)
          have hmn : 2 = n := month_unique 2 n _ hm hn ⟨by omega, by omega⟩ hx
          subst hmn
          rw [he]
          refine Prod.ext rfl ?_
          dsimp only
          omega
      · simp only [hm2, if_false] at hd2
        have hm1 : m = 1 := by omega
        have := b1 (by omega)
        have e1 : ¬ (daysBefore (m - 1) + 0 + (d - 1) = 31 + 29 - 1) := by omega
        have e2 : ¬ (daysBefore (m - 1) + 0 + (d - 1) > 31 + 29 - 1) := by omega
        simp only [e1, e2, if_false]
        obtain ⟨n, hn, hx, he⟩ := month_estimate (daysBefore (m - 1) + 0 + (d - 1))
          (by omega) (by omega)
        have hmn : m = n := month_unique m n _ hm hn ⟨by omega, by omega⟩ hx
        subst hmn
        rw [he]
        refine Prod.ext rfl ?_
        dsimp only
        omega

/-- Seconds of `Date` when the month is already in 1..12. -/
theorem Date_sec (year m d h mi s ns : Int) (hm : 1 ≤ m ∧ m ≤ 12) :
    (Date year m d h mi s ns).sec =
      dayNumberOf year m d * 86400 + (h * 3600 + mi * 60 + s + ns / 1000000000) := by
  have e12 : norm year (m - 1) 12 = (year, m - 1) := by
    rw [norm_12]; refine Prod.ext ?_ ?_ <;> dsimp only <;> omega
  unfold Date
  rw [e12, norm_nsec]
  simp only [norm_60, norm_24]
  simp only [secondsPerDay, dayNumberOf, ydayOf]
  have e : m - 1 + 1 = m := by omega
  rw [e]
  split_ifs <;> omega

theorem Date_nsec (year m d h mi s ns : Int) :
    (Date year m d h mi s ns).nsec = (ns % 1000000000).toNat := by
  unfold Date
  rw [norm_nsec]

theorem Time.date_spec (t : Time) :
    ValidYMD t.date.1 t.date.2.1 t.date.2.2 ∧
      dayNumberOf t.date.1 t.date.2.1 t.date.2.2 = t.sec / 86400 := by
  obtain ⟨h1, h2, h3⟩ := absYear_spec (t.sec / 86400)
  obtain ⟨h4, h5, h6⟩ := absMonthDay_spec _ _ h2 h3
  simp only [Time.date, secondsPerDay, ValidYMD, dayNumberOf]
  exact ⟨⟨h4, h5⟩, by omega⟩

theorem Time.Clock_spec (t : Time) :
    t.Clock.1 * 3600 + t.Clock.2.1 * 60 + t.Clock.2.2 = t.sec % 86400 := by
  simp only [Time.Clock, secondsPerDay]
  omega

/-- Adding whole days moves the instant by that many days (plus a carry when the
nanosecond field is not below one second). -/
theorem Time.AddDate_days_sec (t : Time) (k : Int) :
    (t.AddDate 0 0 k).sec = t.sec + 86400 * k + (t.nsec : Int) / 1000000000 := by
  obtain ⟨⟨hm, hd⟩, hn⟩ := t.date_spec
  have hc := t.Clock_spec
  have e : t.AddDate 0 0 k = Date (t.date.1 + 0) (t.date.2.1 + 0) (t.date.2.2 + k)
      t.Clock.1 t.Clock.2.1 t.Clock.2.2 (t.nsec : Int) := rfl
  rw [e, Int.add_zero, Int.add_zero, Date_sec _ _ _ _ _ _ _ hm]
  simp only [dayNumberOf, ydayOf] at hn ⊢
  omega

theorem Time.AddDate_year_sec (t : Time) :
    t.sec + 86400 * 364 ≤ (t.AddDate 1 0 0).sec := by
  obtain ⟨⟨hm, hd⟩, hn⟩ := t.date_spec
  have hc := t.Clock_spec
  have e : t.AddDate 1 0 0 = Date (t.date.1 + 1) (t.date.2.1 + 0) (t.date.2.2 + 0)
      t.Clock.1 t.Clock.2.1 t.Clock.2.2 (t.nsec : Int) := rfl
  rw [e, Int.add_zero, Int.add_zero, Date_sec _ _ _ _ _ _ _ hm]
  have hs := daysSinceEpoch_succ t.date.1
  have hy : 365 ≤ yearLen t.date.1 := by unfold yearLen; split <;> omega
  simp only [dayNumberOf, ydayOf] at hn ⊢
  have h0 : (0 : Int) ≤ (t.nsec : Int) / 1000000000 := by omega
  split_ifs at hn ⊢ <;> omega

theorem Time.sec_lt_AddDate_days (t : Time) (k : Int) (hk : 0 < k) :
    t.sec < (t.AddDate 0 0 k).sec := by
  rw [t.AddDate_days_sec]
  omega

theorem Time.sec_lt_AddDate_year (t : Time) : t.sec < (t.AddDate 1 0 0).sec := by
  have := t.AddDate_year_sec
  omega

theorem Time.not_After_sec (t u : Time) (h : ¬ t.After u = true) : t.sec ≤ u.sec := by
  simp only [Time.After, Bool.or_eq_true, decide_eq_true_eq, not_or, not_lt] at h
  exact h.1

/-! ## `utils.NextDate` -/

/-- The loop `for !candidate.After(now) { candidate = candidate.AddDate(0, 0, interval) }`
of the daily rule. -/
def dailyLoop (now : Time) (interval : Int) (hpos : 0 < interval) (candidate : Time) : Time :=
  if candidate.After now then candidate
  else dailyLoop now interval hpos (candidate.AddDate 0 0 interval)
termination_by (now.sec - candidate.sec + 1).toNat
decreasing_by
  have h1 := Time.not_After_sec candidate now (by assumption)
  have h2 := Time.sec_lt_AddDate_days candidate interval hpos
  omega

/-- The loop of the yearly rule: add a year, and when the base date is
29 February and the new candidate is 28 February, one more day. -/
def yearlyLoop (now baseDate candidate : Time) : Time :=
  if candidate.After now then candidate
  else
    let next := candidate.AddDate 1 0 0
    yearlyLoop now baseDate
      (if baseDate.Month == 2 && baseDate.Day == 29 && next.Month == 2 && next.Day == 28 then
        next.AddDate 0 0 1
      else next)
termination_by (now.sec - candidate.sec + 1).toNat
decreasing_by
  have h1 := Time.not_After_sec candidate now (by assumption)
  have h2 := Time.sec_lt_AddDate_year candidate
  have h3 := Time.sec_lt_AddDate_days (candidate.AddDate 1 0 0) 1 (by omega)
  split_ifs <;> omega

/-- Go `utils.NextDate`. -/
def NextDate (now : Time) (dateStr : String) (repeatRule : String) : Except Err String :=
  if TrimSpace repeatRule.data = [] then .error .emptyRepeat
  else
    match ParseInLocation dateStr.data with
    | .error e => .error e
    | .ok baseDate =>
      let now := now.In
      if HasPrefix repeatRule.data ['d', ' '] then
        let parts := SplitN repeatRule.data ' ' 2
        if parts.length ≠ 2 then .error .missingInterval
        else
          match Atoi (parts.getD 1 []) with
          | none => .error .invalidInterval
          | some interval =>
            if hle : interval ≤ 0 then .error .invalidInterval
            else if interval > 400 then .error .intervalTooLarge
            else
              let candidate := baseDate.AddDate 0 0 interval
              .ok (dailyLoop now interval (by omega) candidate).Format
      else if repeatRule = "y" then
        let candidate := baseDate.AddDate 1 0 0
        let candidate :=
          if baseDate.Month == 2 && baseDate.Day == 29 && candidate.Month == 2 &&
              candidate.Day == 28 then
            candidate.AddDate 0 0 1
          else candidate
        .ok (yearlyLoop now baseDate candidate).Format
      else .error .unsupportedRepeat

/-! ## Instants at midnight -/

theorem midnight_dayNumber (n : Int) : (midnight n).dayNumber = n := by
  simp only [Time.dayNumber, midnight, secondsPerDay]
  omega

theorem midnight_After (n : Int) (now : Time) :
    (midnight n).After now = decide (now.dayNumber < n) := by
  simp only [Time.After, midnight, Time.dayNumber, secondsPerDay]
  rw [Bool.eq_iff_iff]
  simp only [Bool.or_eq_true, Bool.and_eq_true, decide_eq_true_eq, beq_iff_eq, gt_iff_lt,
    Nat.not_lt_zero, and_false, or_false]
  omega

theorem Date_midnight (year m d : Int) (hm : 1 ≤ m ∧ m ≤ 12) :
    Date year m d 0 0 0 0 = midnight (dayNumberOf year m d) := by
  have h1 := Date_sec year m d 0 0 0 0 hm
  have h2 := Date_nsec year m d 0 0 0 0
  cases hD : Date year m d 0 0 0 0 with
  | mk s n =>
    rw [hD] at h1 h2
    simp only at h1 h2
    simp only [midnight, Time.mk.injEq]
    constructor
    · omega
    · rw [h2]; rfl

theorem midnight_date (year m d : Int) (h : ValidYMD year m d) :
    (midnight (dayNumberOf year m d)).date = (year, m, d) := by
  have hr := ydayOf_range year m d h
  have e : (midnight (dayNumberOf year m d)).sec / secondsPerDay = dayNumberOf year m d :=
    midnight_dayNumber _
  simp only [Time.date, e]
  simp only [dayNumberOf, absYear_daysSinceEpoch year _ hr.1 hr.2, absMonthDay_ydayOf year m d h]

theorem midnight_Clock (n : Int) : (midnight n).Clock = (0, 0, 0) := by
  have e : n * 86400 % 86400 = 0 := by omega
  simp only [Time.Clock, midnight, secondsPerDay, e]
  rfl

theorem midnight_AddDate_days (n k : Int) : (midnight n).AddDate 0 0 k = midnight (n + k) := by
  have h1 := (midnight n).AddDate_days_sec k
  obtain ⟨⟨hm, hd⟩, hn⟩ := (midnight n).date_spec
  have e : (midnight n).AddDate 0 0 k = Date ((midnight n).date.1 + 0) ((midnight n).date.2.1 + 0)
      ((midnight n).date.2.2 + k) (midnight n).Clock.1 (midnight n).Clock.2.1
      (midnight n).Clock.2.2 ((midnight n).nsec : Int) := rfl
  have h2 := Date_nsec ((midnight n).date.1 + 0) ((midnight n).date.2.1 + 0)
      ((midnight n).date.2.2 + k) (midnight n).Clock.1 (midnight n).Clock.2.1
      (midnight n).Clock.2.2 ((midnight n).nsec : Int)
  rw [← e] at h2
  cases hD : (midnight n).AddDate 0 0 k with
  | mk s ns =>
    rw [hD] at h1 h2
    simp only [midnight] at h1 h2 ⊢
    simp only [Time.mk.injEq]
    constructor
    · omega
    · rw [h2]; rfl

theorem midnight_AddDate_year (year m d : Int) (h : ValidYMD year m d) :
    (midnight (dayNumberOf year m d)).AddDate 1 0 0 = midnight (dayNumberOf (year + 1) m d) := by
  have e : (midnight (dayNumberOf year m d)).AddDate 1 0 0 =
      Date ((midnight (dayNumberOf year m d)).date.1 + 1)
        ((midnight (dayNumberOf year m d)).date.2.1 + 0)
        ((midnight (dayNumberOf year m d)).date.2.2 + 0)
        (midnight (dayNumberOf year m d)).Clock.1 (midnight (dayNumberOf year m d)).Clock.2.1
        (midnight (dayNumberOf year m d)).Clock.2.2
        ((midnight (dayNumberOf year m d)).nsec : Int) := rfl
  rw [e, midnight_date year m d h, midnight_Clock]
  simp only [Int.add_zero]
  exact Date_midnight (year + 1) m d h.1

theorem midnight_Month_Day (year m d : Int) (h : ValidYMD year m d) :
    (midnight (dayNumberOf year m d)).Year = year ∧
    (midnight (dayNumberOf year m d)).Month = m ∧ (midnight (dayNumberOf year m d)).Day = d := by
  simp only [Time.Year, Time.Month, Time.Day, midnight_date year m d h, and_self]

/-- A year later the day number is at least 364 days larger, whatever the month
and day written. -/
theorem dayNumberOf_succ_year (year m d : Int) :
    dayNumberOf year m d + 364 ≤ dayNumberOf (year + 1) m d := by
  have hs := daysSinceEpoch_succ year
  have hy : 365 ≤ yearLen year := by unfold yearLen; split <;> omega
  simp only [dayNumberOf, ydayOf]
  split_ifs <;> omega

/-- A date other than 29 February exists in every year. -/
theorem ValidYMD_other_year (year year2 m d : Int) (h : ValidYMD year m d)
    (hne : ¬ (m = 2 ∧ d = 29)) : ValidYMD year2 m d := by
  obtain ⟨hm, hd1, hd2⟩ := h
  obtain ⟨b1, b2, b3, b4, b5, b6, b7⟩ := daysBefore_bounds m hm
  refine ⟨hm, hd1, ?_⟩
  unfold daysIn at hd2 ⊢
  by_cases hm2 : m = 2
  · have := b3 hm2
    have hd : d ≠ 29 := fun hd => hne ⟨hm2, hd⟩
    simp only [hm2, beq_self_eq_true, Bool.true_and] at hd2 ⊢
    subst hm2
    split_ifs at hd2 ⊢ <;> omega
  · have e : (m == 2) = false := by simpa using hm2
    simp only [e, Bool.false_and, Bool.false_eq_true, if_false] at hd2 ⊢
    exact hd2

theorem ValidYMD_feb29_leap (year : Int) (h : ValidYMD year 2 29) : isLeap year = true := by
  obtain ⟨v0, v1, v2, v3, v4, v5, v6, v7, v8, v9, v10, v11, v12⟩ := daysBefore_vals
  obtain ⟨hm, hd1, hd2⟩ := h
  unfold daysIn at hd2
  cases hl : isLeap year
  · rw [hl] at hd2
    norm_num [v1, v2] at hd2
  · rfl

theorem isLeap_succ (year : Int) (h : isLeap year = true) : isLeap (year + 1) = false := by
  simp only [isLeap, Bool.and_eq_true, Bool.or_eq_true, beq_iff_eq, bne_iff_ne, ne_eq] at h
  simp only [isLeap]
  rw [Bool.eq_false_iff]
  simp only [ne_eq, Bool.and_eq_true, Bool.or_eq_true, beq_iff_eq, bne_iff_ne]
  omega

/-- In a year that is not leap, `Date` normalises 29 February to 1 March. -/
theorem dayNumberOf_feb29 (year : Int) (h : isLeap year = false) :
    dayNumberOf year 2 29 = dayNumberOf year 3 1 := by
  obtain ⟨v0, v1, v2, v3, v4, v5, v6, v7, v8, v9, v10, v11, v12⟩ := daysBefore_vals
  simp only [dayNumberOf, ydayOf, h]
  norm_num [v1, v2]

theorem ValidYMD_mar1 (year : Int) : ValidYMD year 3 1 := by
  obtain ⟨v0, v1, v2, v3, v4, v5, v6, v7, v8, v9, v10, v11, v12⟩ := daysBefore_vals
  refine ⟨⟨by omega, by omega⟩, by omega, ?_⟩
  unfold daysIn
  norm_num [v2, v3]

/-! ## Calendar dates written as `YYYYMMDD` -/

theorem daysIn_eq_monthLength (year m : Int) (hm : 1 ≤ m ∧ m ≤ 12) :
    daysIn m year = monthLength year m := by
  obtain ⟨v0, v1, v2, v3, v4, v5, v6, v7, v8, v9, v10, v11, v12⟩ := daysBefore_vals
  obtain ⟨hm1, hm2⟩ := hm
  unfold daysIn monthLength isLeap
  interval_cases m <;>
    norm_num [v0, v1, v2, v3, v4, v5, v6, v7, v8, v9, v10, v11, v12]

theorem digit_not_sign (c : Char) (h : isDecimalDigit c = true) : ¬ (c = '-' ∨ c = '+') := by
  rintro (rfl | rfl) <;> revert h <;> decide

theorem digitVal_range (c : Char) (h : isDecimalDigit c = true) :
    0 ≤ digitVal c ∧ digitVal c ≤ 9 := by
  simp only [isDecimalDigit, Bool.and_eq_true, decide_eq_true_eq] at h
  obtain ⟨h1, h2⟩ := h
  have h1 : (48 : Nat) ≤ c.toNat := h1
  have h2 : c.toNat ≤ 57 := h2
  unfold digitVal
  omega

theorem leadingInt_digit (c : Char) (cs : List Char) (x : Int) (h : isDecimalDigit c = true) :
    leadingInt (c :: cs) x = leadingInt cs (x * 10 + digitVal c) := by
  unfold isDecimalDigit at h
  rw [leadingInt, if_pos h]

theorem leadingInt_nondigit (c : Char) (cs : List Char) (x : Int)
    (h : isDecimalDigit c = false) : leadingInt (c :: cs) x = (x, c :: cs) := by
  unfold isDecimalDigit at h
  rw [leadingInt, h]
  rfl

/-- The year field: four characters, the first of them a digit. -/
theorem atoi_four (a b c d : Char) (ha : isDecimalDigit a = true) :
    atoi [a, b, c, d] =
      if isDecimalDigit b && isDecimalDigit c && isDecimalDigit d then
        some (1000 * digitVal a + 100 * digitVal b + 10 * digitVal c + digitVal d)
      else none := by
  have hs := digit_not_sign a ha
  simp only [atoi, hs, if_false]
  rw [leadingInt_digit a _ _ ha]
  cases hb : isDecimalDigit b
  · rw [leadingInt_nondigit b _ _ hb]; simp
  · rw [leadingInt_digit b _ _ hb]
    cases hc : isDecimalDigit c
    · rw [leadingInt_nondigit c _ _ hc]; simp
    · rw [leadingInt_digit c _ _ hc]
      cases hd : isDecimalDigit d
      · rw [leadingInt_nondigit d _ _ hd]; simp
      · rw [leadingInt_digit d _ _ hd]
        simp only [leadingInt, List.length_nil, gt_iff_lt, lt_self_iff_false, if_false,
          Bool.false_eq_true, Bool.and_self, if_true, Option.some.injEq]
        omega

/-- A two-digit field. -/
theorem getnum_fixed (l : List Char) :
    getnum l true =
      match l with
      | e :: f :: r =>
        if isDecimalDigit e && isDecimalDigit f then some (10 * digitVal e + digitVal f, r)
        else none
      | _ => none := by
  rcases l with _ | ⟨e, _ | ⟨f, r⟩⟩
  · simp [getnum, isDigit]
  · simp [getnum, isDigit]
  · have he : (decide ('0' ≤ e) && decide (e ≤ '9')) = isDecimalDigit e := rfl
    have hf : (decide ('0' ≤ f) && decide (f ≤ '9')) = isDecimalDigit f := rfl
    simp only [getnum, isDigit, List.get?, List.getD_cons_zero,
      List.getD_cons_succ, List.drop_succ_cons, List.drop_zero, he, hf]
    by_cases h1 : isDecimalDigit e = true
    · by_cases h2 : isDecimalDigit f = true
      · simp only [h1, h2, Bool.not_true, Bool.false_eq_true, if_false, Bool.and_self, if_true,
          Option.some.injEq, Prod.mk.injEq, and_true]
        omega
      · simp [h1, h2]
    · simp [h1]

/-- What `ParseInLocation` returns, in terms of the date the string writes. -/
theorem ParseInLocation_eq (s : String) :
    ParseInLocation s.data =
      match dateOfString s with
      | some (y, m, d) => .ok (Date y m d 0 0 0 0)
      | none => .error .parseError := by
  unfold dateOfString
  rcases hs : s.data with _ | ⟨a, _ | ⟨b, _ | ⟨c, _ | ⟨d, r⟩⟩⟩⟩
  · simp [ParseInLocation]
  · simp [ParseInLocation]
  · simp [ParseInLocation]
  · simp [ParseInLocation]
  · have ha0 : isDigit (a :: b :: c :: d :: r) 0 = isDecimalDigit a := rfl
    have hlen : ¬ ((a :: b :: c :: d :: r).length < 4) := by simp
    simp only [ParseInLocation, hlen, decide_False, Bool.false_or, ha0, List.take_succ_cons,
      List.take_zero, List.drop_succ_cons, List.drop_zero, getnum_fixed]
    by_cases ha : isDecimalDigit a = true
    swap
    · have ha2 : isDecimalDigit a = false := by simpa using ha
      simp only [ha2, Bool.not_false, if_true]
      rcases r with _ | ⟨e, _ | ⟨f, _ | ⟨g, _ | ⟨h, _ | ⟨i, r⟩⟩⟩⟩⟩ <;>
        simp [ha2]
    · simp only [ha, Bool.not_true, Bool.false_eq_true, if_false, atoi_four a b c d ha]
      by_cases hbcd : (isDecimalDigit b && isDecimalDigit c && isDecimalDigit d) = true
      swap
      · have hbcd2 : (isDecimalDigit b && isDecimalDigit c && isDecimalDigit d) = false := by
          simpa using hbcd
        simp only [hbcd2, Bool.false_eq_true, if_false]
        rcases r with _ | ⟨e, _ | ⟨f, _ | ⟨g, _ | ⟨h, _ | ⟨i, r⟩⟩⟩⟩⟩ <;> try rfl
        simp only [List.all_cons, ha, Bool.true_and]
        simp only [Bool.and_eq_true] at hbcd
        simp only [Bool.and_eq_true, List.all_nil, Bool.and_true]
        rw [if_neg]
        intro hc
        exact hbcd ⟨⟨hc.1, hc.2.1⟩, hc.2.2.1⟩
      · simp only [hbcd, if_true]
        simp only [Bool.and_eq_true] at hbcd
        obtain ⟨⟨hb, hc⟩, hd⟩ := hbcd
        rcases r with _ | ⟨e, _ | ⟨f, _ | ⟨g, _ | ⟨h, _ | ⟨i, r⟩⟩⟩⟩⟩
        · rfl
        · rfl
        · simp only [List.all_cons, ha, hb, hc, hd, Bool.true_and]
          by_cases hef : (isDecimalDigit e && isDecimalDigit f) = true
          · simp only [hef, if_true]
            split_ifs <;> rfl
          · simp only [hef, Bool.false_eq_true, if_false]
        · simp only [List.all_cons, ha, hb, hc, hd, Bool.true_and]
          by_cases hef : (isDecimalDigit e && isDecimalDigit f) = true
          · simp only [hef, if_true]
            split_ifs <;> rfl
          · simp only [hef, Bool.false_eq_true, if_false]
        · simp only [List.all_cons, ha, hb, hc, hd, Bool.true_and, List.all_nil, Bool.and_true]
          by_cases hef : (isDecimalDigit e && isDecimalDigit f) = true
          swap
          · have hef2 : ¬ (isDecimalDigit e && (isDecimalDigit f &&
                (isDecimalDigit g && isDecimalDigit h))) = true := by
              intro hx
              simp only [Bool.and_eq_true] at hx hef
              exact hef ⟨hx.1, hx.2.1⟩
            simp only [hef, hef2, Bool.false_eq_true, if_false]
          · simp only [hef, if_true]
            simp only [Bool.and_eq_true] at hef
            simp only [hef.1, hef.2, Bool.true_and]
            by_cases hm : 1 ≤ 10 * digitVal e + digitVal f ∧ 10 * digitVal e + digitVal f ≤ 12
            swap
            · have hm2 : (decide (10 * digitVal e + digitVal f ≤ 0) ||
                  decide (12 < 10 * digitVal e + digitVal f)) = true := by
                simp only [Bool.or_eq_true, decide_eq_true_eq]
                omega
              simp only [hm2, if_true]
              split_ifs with h1 h2
              · exact absurd ⟨h2.1, h2.2.1⟩ hm
              · rfl
              · rfl
            · have hm2 : (decide (10 * digitVal e + digitVal f ≤ 0) ||
                  decide (12 < 10 * digitVal e + digitVal f)) = false := by
                rw [Bool.eq_false_iff]
                simp only [ne_eq, Bool.or_eq_true, decide_eq_true_eq]
                omega
              simp only [hm2, Bool.false_eq_true, if_false]
              by_cases hgh : (isDecimalDigit g && isDecimalDigit h) = true
              swap
              · simp only [hgh, Bool.false_eq_true, if_false]
              · simp only [hgh, if_true, List.length_nil, ne_eq, not_true_eq_false, if_false]
                rw [daysIn_eq_monthLength _ _ hm]
                by_cases hday : 1 ≤ 10 * digitVal g + digitVal h ∧ 10 * digitVal g + digitVal h ≤
                    monthLength (1000 * digitVal a + 100 * digitVal b + 10 * digitVal c +
                      digitVal d) (10 * digitVal e + digitVal f)
                · have hd2 : (decide (10 * digitVal g + digitVal h < 1) ||
                      decide (10 * digitVal g + digitVal h > monthLength (1000 * digitVal a +
                        100 * digitVal b + 10 * digitVal c + digitVal d)
                        (10 * digitVal e + digitVal f))) = false := by
                    rw [Bool.eq_false_iff]
                    simp only [ne_eq, Bool.or_eq_true, decide_eq_true_eq]
                    omega
                  simp only [hd2, Bool.false_eq_true, if_false]
                  rw [if_pos ⟨hm.1, hm.2, hday.1, hday.2⟩]
                · have hd2 : (decide (10 * digitVal g + digitVal h < 1) ||
                      decide (10 * digitVal g + digitVal h > monthLength (1000 * digitVal a +
                        100 * digitVal b + 10 * digitVal c + digitVal d)
                        (10 * digitVal e + digitVal f))) = true := by
                    simp only [Bool.or_eq_true, decide_eq_true_eq]
                    omega
                  simp only [hd2, if_true]
                  rw [if_neg]
                  intro hx
                  exact hday ⟨hx.2.2.1, hx.2.2.2⟩
        · by_cases hef : (isDecimalDigit e && isDecimalDigit f) = true
          swap
          · simp only [hef, Bool.false_eq_true, if_false]
          · simp only [hef, if_true]
            split_ifs with h1 h2
            · rfl
            · simp only [List.length_cons, ne_eq]
              rw [if_pos (by omega)]
            · rfl

theorem dateOfString_valid (s : String) (Y M D : Int) (h : dateOfString s = some (Y, M, D)) :
    ValidYMD Y M D ∧ 0 ≤ Y ∧ Y ≤ 9999 := by
  unfold dateOfString at h
  split at h
  · rename_i y1 y2 y3 y4 m1 m2 d1 d2 hs
    by_cases h1 : [y1, y2, y3, y4, m1, m2, d1, d2].all isDecimalDigit = true
    swap
    · rw [if_neg h1] at h
      exact absurd h (by simp)
    rw [if_pos h1] at h
    dsimp only at h
    by_cases h2 : 1 ≤ 10 * digitVal m1 + digitVal m2 ∧ 10 * digitVal m1 + digitVal m2 ≤ 12 ∧
        1 ≤ 10 * digitVal d1 + digitVal d2 ∧ 10 * digitVal d1 + digitVal d2 ≤
          monthLength (1000 * digitVal y1 + 100 * digitVal y2 + 10 * digitVal y3 + digitVal y4)
            (10 * digitVal m1 + digitVal m2)
    swap
    · rw [if_neg h2] at h
      exact absurd h (by simp)
    rw [if_pos h2] at h
    simp only [Option.some.injEq, Prod.mk.injEq] at h
    obtain ⟨hY, hM, hD⟩ := h
    simp only [List.all_cons, List.all_nil, Bool.and_true, Bool.and_eq_true] at h1
    obtain ⟨a1, a2, a3, a4, -⟩ := h1
    have r1 := digitVal_range y1 a1
    have r2 := digitVal_range y2 a2
    have r3 := digitVal_range y3 a3
    have r4 := digitVal_range y4 a4
    rw [hY, hM, hD] at h2
    refine ⟨⟨⟨h2.1, h2.2.1⟩, h2.2.2.1, ?_⟩, by omega, by omega⟩
    rw [daysIn_eq_monthLength _ _ ⟨h2.1, h2.2.1⟩]
    exact h2.2.2.2
  · exact absurd h (by simp)

theorem ParseInLocation_of_date (s : String) (Y M D : Int)
    (h : dateOfString s = some (Y, M, D)) :
    ParseInLocation s.data = .ok (midnight (dayNumberOf Y M D)) := by
  rw [ParseInLocation_eq, h]
  simp only
  rw [Date_midnight Y M D (dateOfString_valid s Y M D h).1.1]

theorem ParseInLocation_of_none (s : String) (h : dateOfString s = none) :
    ParseInLocation s.data = .error .parseError := by
  rw [ParseInLocation_eq, h]

/-! ## Strings -/

theorem TrimSpace_eq_nil_iff (l : List Char) :
    TrimSpace l = [] ↔ ∀ c ∈ l, IsSpace c = true := by
  unfold TrimSpace
  rw [List.reverse_eq_nil_iff, List.dropWhile_eq_nil_iff]
  constructor
  · intro h
    rw [← List.dropWhile_eq_nil_iff]
    cases hd : l.dropWhile IsSpace with
    | nil => rfl
    | cons x xs =>
      have hx : IsSpace x = true := h x (by rw [hd]; simp)
      have hnx := List.head_dropWhile_not IsSpace l (by rw [hd]; simp)
      simp only [hd, List.head_cons] at hnx
      rw [hx] at hnx
      exact absurd hnx (by simp)
  · intro h c hc
    rw [List.mem_reverse] at hc
    exact h c ((List.dropWhile_sublist IsSpace).subset hc)

theorem daily_data (s : String) : ("d " ++ s).data = 'd' :: ' ' :: s.data := by
  rw [String.data_append]
  rfl

theorem TrimSpace_daily (l : List Char) : TrimSpace ('d' :: ' ' :: l) ≠ [] := by
  rw [Ne, TrimSpace_eq_nil_iff]
  intro h
  have := h 'd' (by simp)
  revert this
  decide

theorem HasPrefix_daily (l : List Char) : HasPrefix ('d' :: ' ' :: l) ['d', ' '] = true := by
  simp [HasPrefix, List.isPrefixOf]

theorem SplitN_daily (l : List Char) : SplitN ('d' :: ' ' :: l) ' ' 2 = [['d'], l] := by
  have e : min 2 (('d' :: ' ' :: l).length + 1) - 1 = 1 := by
    simp only [List.length_cons]
    omega
  have hf : ('d' :: ' ' :: l).findIdx? (fun c => c == ' ') = some 1 := by
    simp [List.findIdx?_cons]
  simp only [SplitN, e, genSplit, hf]
  simp

/-! ## The advance loops on midnight candidates -/

theorem dailyLoop_midnight (now : Time) (k : Int) (hk : 0 < k) (j : Nat) :
    ∀ c : Int, now.dayNumber < c + j * k →
      (∀ i : Nat, i < j → c + i * k ≤ now.dayNumber) →
      dailyLoop now k hk (midnight c) = midnight (c + j * k) := by
  induction j with
  | zero =>
    intro c hj _
    rw [dailyLoop, midnight_After]
    simp only [Nat.cast_zero, zero_mul, add_zero] at hj ⊢
    simp only [hj, decide_True, if_true]
  | succ j ih =>
    intro c hj hmin
    have h0 := hmin 0 (by omega)
    simp only [Nat.cast_zero, zero_mul, add_zero] at h0
    rw [dailyLoop, midnight_After]
    have hn : ¬ (now.dayNumber < c) := by omega
    simp only [hn, decide_False, Bool.false_eq_true, if_false]
    rw [midnight_AddDate_days, ih (c + k)]
    · congr 1
      push_cast
      ring
    · push_cast at hj
      linarith
    · intro i hi
      have := hmin (i + 1) (by omega)
      push_cast at this
      linarith

theorem yearlyLoop_midnight (now baseDate : Time) (M D : Int) (hv : ∀ y, ValidYMD y M D)
    (hfix : ¬ (baseDate.Month = 2 ∧ baseDate.Day = 29 ∧ M = 2 ∧ D = 28)) (j : Nat) :
    ∀ Y : Int, now.dayNumber < dayNumberOf (Y + j) M D →
      (∀ i : Nat, i < j → dayNumberOf (Y + i) M D ≤ now.dayNumber) →
      yearlyLoop now baseDate (midnight (dayNumberOf Y M D)) =
        midnight (dayNumberOf (Y + j) M D) := by
  induction j with
  | zero =>
    intro Y hj _
    rw [yearlyLoop, midnight_After]
    simp only [Nat.cast_zero, add_zero] at hj ⊢
    simp only [hj, decide_True, if_true]
  | succ j ih =>
    intro Y hj hmin
    have h0 := hmin 0 (by omega)
    simp only [Nat.cast_zero, add_zero] at h0
    rw [yearlyLoop, midnight_After]
    have hn : ¬ (now.dayNumber < dayNumberOf Y M D) := by omega
    simp only [hn, decide_False, Bool.false_eq_true, if_false]
    rw [midnight_AddDate_year Y M D (hv Y)]
    obtain ⟨-, hM, hD⟩ := midnight_Month_Day (Y + 1) M D (hv (Y + 1))
    have hc : (baseDate.Month == 2 && baseDate.Day == 29 &&
        (midnight (dayNumberOf (Y + 1) M D)).Month == 2 &&
        (midnight (dayNumberOf (Y + 1) M D)).Day == 28) = false := by
      rw [hM, hD, Bool.eq_false_iff]
      simp only [ne_eq, Bool.and_eq_true, beq_iff_eq]
      intro hx
      exact hfix ⟨hx.1.1.1, hx.1.1.2, hx.1.2, hx.2⟩
    simp only [hc, Bool.false_eq_true, if_false]
    have e : Y + ((j + 1 : Nat) : Int) = Y + 1 + (j : Int) := by push_cast; ring
    rw [e] at hj ⊢
    apply ih (Y + 1) hj
    intro i hi
    have := hmin (i + 1) (by omega)
    have e2 : Y + ((i + 1 : Nat) : Int) = Y + 1 + (i : Int) := by push_cast; ring
    rw [e2] at this
    exact this

/-! ## `NextDate`, branch by branch -/

theorem Format_midnight (Y M D : Int) (h : ValidYMD Y M D) :
    (midnight (dayNumberOf Y M D)).Format = formatDate Y M D := by
  obtain ⟨h1, h2, h3⟩ := midnight_Month_Day Y M D h
  rw [Time.Format, h1, h2, h3]

theorem NextDate_blank (now : Time) (dateStr repeatRule : String)
    (h : ∀ c ∈ repeatRule.data, IsSpace c = true) :
    NextDate now dateStr repeatRule = .error .emptyRepeat := by
  have e := (TrimSpace_eq_nil_iff repeatRule.data).mpr h
  simp only [NextDate, e, if_true]

theorem NextDate_bad_date (now : Time) (dateStr repeatRule : String)
    (hr : TrimSpace repeatRule.data ≠ []) (hd : dateOfString dateStr = none) :
    NextDate now dateStr repeatRule = .error .parseError := by
  simp only [NextDate, hr, if_false, ParseInLocation_of_none dateStr hd]

theorem NextDate_unsupported (now : Time) (dateStr repeatRule : String) (Y M D : Int)
    (hr : TrimSpace repeatRule.data ≠ []) (hd : dateOfString dateStr = some (Y, M, D))
    (hp : HasPrefix repeatRule.data ['d', ' '] = false) (hy : repeatRule ≠ "y") :
    NextDate now dateStr repeatRule = .error .unsupportedRepeat := by
  simp only [NextDate, hr, if_false, ParseInLocation_of_date dateStr Y M D hd, hp,
    Bool.false_eq_true, hy]

theorem NextDate_daily_none (now : Time) (dateStr s : String) (Y M D : Int)
    (hd : dateOfString dateStr = some (Y, M, D)) (ha : Atoi s.data = none) :
    NextDate now dateStr ("d " ++ s) = .error .invalidInterval := by
  simp only [NextDate, daily_data, TrimSpace_daily, if_false,
    ParseInLocation_of_date dateStr Y M D hd, HasPrefix_daily, if_true, SplitN_daily,
    List.length_cons, List.length_nil, ne_eq, not_true_eq_false, List.getD_cons_succ,
    List.getD_cons_zero, ha, Nat.reduceAdd]

theorem NextDate_daily_some (now : Time) (dateStr s : String) (Y M D k : Int)
    (hd : dateOfString dateStr = some (Y, M, D)) (ha : Atoi s.data = some k) :
    NextDate now dateStr ("d " ++ s) =
      if hle : k ≤ 0 then .error .invalidInterval
      else if k > 400 then .error .intervalTooLarge
      else .ok (dailyLoop now k (by omega) (midnight (dayNumberOf Y M D + k))).Format := by
  simp only [NextDate, daily_data, TrimSpace_daily, if_false,
    ParseInLocation_of_date dateStr Y M D hd, HasPrefix_daily, if_true, SplitN_daily,
    List.length_cons, List.length_nil, ne_eq, not_true_eq_false, List.getD_cons_succ,
    List.getD_cons_zero, ha, Nat.reduceAdd, midnight_AddDate_days, Time.In]

theorem NextDate_daily_ok (now : Time) (dateStr s : String) (Y M D k : Int)
    (hd : dateOfString dateStr = some (Y, M, D)) (ha : Atoi s.data = some k)
    (h1 : 1 ≤ k) (h2 : k ≤ 400) (n : Nat) (hn : 1 ≤ n)
    (hgt : now.dayNumber < dayNumberOf Y M D + n * k)
    (hmin : ∀ m : Nat, 1 ≤ m → m < n → dayNumberOf Y M D + m * k ≤ now.dayNumber) :
    NextDate now dateStr ("d " ++ s) = .ok (midnight (dayNumberOf Y M D + n * k)).Format := by
  rw [NextDate_daily_some now dateStr s Y M D k hd ha, dif_neg (by omega), if_neg (by omega)]
  obtain ⟨j, rfl⟩ : ∃ j : Nat, n = j + 1 := ⟨n - 1, by omega⟩
  have e : dayNumberOf Y M D + ((j + 1 : Nat) : Int) * k = dayNumberOf Y M D + k + j * k := by
    push_cast; ring
  rw [e] at hgt ⊢
  rw [dailyLoop_midnight now k (by omega) j _ hgt]
  intro i hi
  have := hmin (i + 1) (by omega) (by omega)
  push_cast at this
  linarith

theorem exists_least_daily (N b k : Int) (hk : 0 < k) :
    ∃ n : Nat, 1 ≤ n ∧ N < b + n * k ∧ ∀ m : Nat, 1 ≤ m → m < n → b + m * k ≤ N := by
  have hex : ∃ n : Nat, 1 ≤ n ∧ N < b + n * k := by
    refine ⟨(N - b).toNat + 1, by omega, ?_⟩
    have h1 : ((((N - b).toNat + 1 : Nat)) : Int) ≤ (((N - b).toNat + 1 : Nat) : Int) * k :=
      le_mul_of_one_le_right (by positivity) (by omega)
    have h2 : N - b < (((N - b).toNat + 1 : Nat) : Int) := by
      push_cast
      omega
    omega
  classical
  refine ⟨Nat.find hex, (Nat.find_spec hex).1, (Nat.find_spec hex).2, ?_⟩
  intro m hm1 hm2
  have := Nat.find_min hex hm2
  simp only [not_and, not_lt] at this
  exact this hm1

theorem dayNumberOf_add_years (Y M D : Int) (n : Nat) :
    dayNumberOf Y M D + 364 * n ≤ dayNumberOf (Y + n) M D := by
  induction n with
  | zero => simp
  | succ n ih =>
    have := dayNumberOf_succ_year (Y + n) M D
    have e : Y + ((n + 1 : Nat) : Int) = Y + n + 1 := by push_cast; ring
    rw [e]
    push_cast
    omega

theorem exists_least_yearly (N Y M D : Int) :
    ∃ n : Nat, 1 ≤ n ∧ N < dayNumberOf (Y + n) M D ∧
      ∀ m : Nat, 1 ≤ m → m < n → dayNumberOf (Y + m) M D ≤ N := by
  have hex : ∃ n : Nat, 1 ≤ n ∧ N < dayNumberOf (Y + n) M D := by
    refine ⟨(N - dayNumberOf Y M D).toNat + 1, by omega, ?_⟩
    have := dayNumberOf_add_years Y M D ((N - dayNumberOf Y M D).toNat + 1)
    push_cast at this ⊢
    omega
  classical
  refine ⟨Nat.find hex, (Nat.find_spec hex).1, (Nat.find_spec hex).2, ?_⟩
  intro m hm1 hm2
  have := Nat.find_min hex hm2
  simp only [not_and, not_lt] at this
  exact this hm1

theorem yearly_nonblank : TrimSpace ['y'] ≠ [] := by decide

theorem yearly_not_daily : HasPrefix ['y'] ['d', ' '] = false := by decide

/-- The yearly rule on a base date other than 29 February. -/
theorem NextDate_yearly_ok (now : Time) (dateStr : String) (Y M D : Int)
    (hd : dateOfString dateStr = some (Y, M, D)) (hne : ¬ (M = 2 ∧ D = 29)) (n : Nat)
    (hn : 1 ≤ n) (hgt : now.dayNumber < dayNumberOf (Y + n) M D)
    (hmin : ∀ m : Nat, 1 ≤ m → m < n → dayNumberOf (Y + m) M D ≤ now.dayNumber) :
    NextDate now dateStr "y" = .ok (formatDate (Y + n) M D) := by
  have hv := (dateOfString_valid dateStr Y M D hd).1
  have hall : ∀ y, ValidYMD y M D := fun y => ValidYMD_other_year Y y M D hv hne
  obtain ⟨-, hM, hD⟩ := midnight_Month_Day Y M D hv
  have hb : ¬ ((midnight (dayNumberOf Y M D)).Month = 2 ∧
      (midnight (dayNumberOf Y M D)).Day = 29) := by rw [hM, hD]; exact hne
  have hc : ∀ t : Time, ((midnight (dayNumberOf Y M D)).Month == 2 &&
      (midnight (dayNumberOf Y M D)).Day == 29 && t.Month == 2 && t.Day == 28) = false := by
    intro t
    rw [Bool.eq_false_iff]
    simp only [ne_eq, Bool.and_eq_true, beq_iff_eq]
    intro hx
    exact hb ⟨hx.1.1.1, hx.1.1.2⟩
  simp only [NextDate, yearly_nonblank, if_false, ParseInLocation_of_date dateStr Y M D hd,
    yearly_not_daily, Bool.false_eq_true, if_true, hc, Time.In]
  rw [midnight_AddDate_year Y M D hv]
  obtain ⟨j, rfl⟩ : ∃ j : Nat, n = j + 1 := ⟨n - 1, by omega⟩
  have e : Y + ((j + 1 : Nat) : Int) = Y + 1 + j := by push_cast; ring
  rw [e] at hgt ⊢
  rw [yearlyLoop_midnight now _ M D hall (fun hx => hb ⟨hx.1, hx.2.1⟩) j (Y + 1) hgt,
    Format_midnight _ _ _ (hall _)]
  intro i hi
  have := hmin (i + 1) (by omega) (by omega)
  have e2 : Y + ((i + 1 : Nat) : Int) = Y + 1 + i := by push_cast; ring
  rw [e2] at this
  exact this

/-- The yearly rule on a base date that is 29 February: every candidate is a
1 March. -/
theorem NextDate_yearly_feb29 (now : Time) (dateStr : String) (Y : Int)
    (hd : dateOfString dateStr = some (Y, 2, 29)) (n : Nat)
    (hn : 1 ≤ n) (hgt : now.dayNumber < dayNumberOf (Y + n) 3 1)
    (hmin : ∀ m : Nat, 1 ≤ m → m < n → dayNumberOf (Y + m) 3 1 ≤ now.dayNumber) :
    NextDate now dateStr "y" = .ok (formatDate (Y + n) 3 1) := by
  have hv := (dateOfString_valid dateStr Y 2 29 hd).1
  have hleap := ValidYMD_feb29_leap Y hv
  have hnl := isLeap_succ Y hleap
  have hcand : (midnight (dayNumberOf Y 2 29)).AddDate 1 0 0 =
      midnight (dayNumberOf (Y + 1) 3 1) := by
    rw [midnight_AddDate_year Y 2 29 hv, dayNumberOf_feb29 (Y + 1) hnl]
  obtain ⟨-, hM, hD⟩ := midnight_Month_Day (Y + 1) 3 1 (ValidYMD_mar1 _)
  have hc : ((midnight (dayNumberOf Y 2 29)).Month == 2 &&
      (midnight (dayNumberOf Y 2 29)).Day == 29 &&
      (midnight (dayNumberOf (Y + 1) 3 1)).Month == 2 &&
      (midnight (dayNumberOf (Y + 1) 3 1)).Day == 28) = false := by
    rw [hM, Bool.eq_false_iff]
    simp only [ne_eq, Bool.and_eq_true, beq_iff_eq]
    intro hx
    have := hx.1.2
    omega
  simp only [NextDate, yearly_nonblank, if_false, ParseInLocation_of_date dateStr Y 2 29 hd,
    yearly_not_daily, Bool.false_eq_true, if_true, hcand, hc, Time.In]
  obtain ⟨j, rfl⟩ : ∃ j : Nat, n = j + 1 := ⟨n - 1, by omega⟩
  have e : Y + ((j + 1 : Nat) : Int) = Y + 1 + j := by push_cast; ring
  rw [e] at hgt ⊢
  rw [yearlyLoop_midnight now _ 3 1 ValidYMD_mar1 (fun hx => by omega) j (Y + 1) hgt,
    Format_midnight _ _ _ (ValidYMD_mar1 _)]
  intro i hi
  have := hmin (i + 1) (by omega) (by omega)
  have e2 : Y + ((i + 1 : Nat) : Int) = Y + 1 + i := by push_cast; ring
  rw [e2] at this
  exact this

theorem HasPrefix_daily_inv (l : List Char) (h : HasPrefix l ['d', ' '] = true) :
    ∃ rest, l = 'd' :: ' ' :: rest := by
  rcases l with _ | ⟨a, _ | ⟨b, rest⟩⟩
  · simp [HasPrefix, List.isPrefixOf] at h
  · simp [HasPrefix, List.isPrefixOf] at h
  · simp only [HasPrefix, List.isPrefixOf, Bool.and_eq_true, beq_iff_eq, Bool.and_true] at h
    exact ⟨rest, by rw [← h.1, ← h.2]⟩

theorem daily_of_HasPrefix (r : String) (h : HasPrefix r.data ['d', ' '] = true) :
    ∃ s : String, r = "d " ++ s := by
  obtain ⟨rest, hrest⟩ := HasPrefix_daily_inv r.data h
  refine ⟨String.mk rest, ?_⟩
  apply String.ext
  rw [daily_data, hrest]

theorem dayNumber_of_date_eq (t u : Time) (h : t.date = u.date) : t.dayNumber = u.dayNumber := by
  have h1 := t.date_spec.2
  have h2 := u.date_spec.2
  rw [h] at h1
  simp only [Time.dayNumber, secondsPerDay]
  omega

/-- The outcome depends on the reference only through its day number. -/
theorem NextDate_congr (now1 now2 : Time) (dateStr repeatRule : String)
    (h : now1.dayNumber = now2.dayNumber) :
    NextDate now1 dateStr repeatRule = NextDate now2 dateStr repeatRule := by
  by_cases hblank : ∀ c ∈ repeatRule.data, IsSpace c = true
  · rw [NextDate_blank now1 _ _ hblank, NextDate_blank now2 _ _ hblank]
  have hr : TrimSpace repeatRule.data ≠ [] := fun hx =>
    hblank ((TrimSpace_eq_nil_iff _).mp hx)
  cases hd : dateOfString dateStr with
  | none => rw [NextDate_bad_date now1 _ _ hr hd, NextDate_bad_date now2 _ _ hr hd]
  | some ymd =>
    obtain ⟨Y, M, D⟩ := ymd
    by_cases hp : HasPrefix repeatRule.data ['d', ' '] = true
    · obtain ⟨s, rfl⟩ := daily_of_HasPrefix repeatRule hp
      cases ha : Atoi s.data with
      | none => rw [NextDate_daily_none now1 _ _ Y M D hd ha, NextDate_daily_none now2 _ _ Y M D hd ha]
      | some k =>
        by_cases hk : k ≤ 0
        · rw [NextDate_daily_some now1 _ _ Y M D k hd ha, NextDate_daily_some now2 _ _ Y M D k hd ha,
            dif_pos hk, dif_pos hk]
        by_cases hk2 : k > 400
        · rw [NextDate_daily_some now1 _ _ Y M D k hd ha, NextDate_daily_some now2 _ _ Y M D k hd ha,
            dif_neg hk, dif_neg hk, if_pos hk2, if_pos hk2]
        obtain ⟨n, hn, hgt, hmin⟩ := exists_least_daily now1.dayNumber (dayNumberOf Y M D) k
          (by omega)
        rw [NextDate_daily_ok now1 _ _ Y M D k hd ha (by omega) (by omega) n hn hgt hmin]
        rw [h] at hgt hmin
        rw [NextDate_daily_ok now2 _ _ Y M D k hd ha (by omega) (by omega) n hn hgt hmin]
    · have hp : HasPrefix repeatRule.data ['d', ' '] = false := by simpa using hp
      by_cases hy : repeatRule = "y"
      · subst hy
        by_cases hne : M = 2 ∧ D = 29
        · obtain ⟨rfl, rfl⟩ := hne
          obtain ⟨n, hn, hgt, hmin⟩ := exists_least_yearly now1.dayNumber Y 3 1
          rw [NextDate_yearly_feb29 now1 _ Y hd n hn hgt hmin]
          rw [h] at hgt hmin
          rw [NextDate_yearly_feb29 now2 _ Y hd n hn hgt hmin]
        · obtain ⟨n, hn, hgt, hmin⟩ := exists_least_yearly now1.dayNumber Y M D
          rw [NextDate_yearly_ok now1 _ Y M D hd hne n hn hgt hmin]
          rw [h] at hgt hmin
          rw [NextDate_yearly_ok now2 _ Y M D hd hne n hn hgt hmin]
      · rw [NextDate_unsupported now1 _ _ Y M D hr hd hp hy,
          NextDate_unsupported now2 _ _ Y M D hr hd hp hy]

theorem Date_dayNumber (Y M D : Int) (hm : 1 ≤ M ∧ M ≤ 12) :
    (Date Y M D 0 0 0 0).dayNumber = dayNumberOf Y M D := by
  rw [Date_midnight Y M D hm, midnight_dayNumber]

theorem dayNumberOf_add_days (Y M D x : Int) :
    dayNumberOf Y M (D + x) = dayNumberOf Y M D + x := by
  simp only [dayNumberOf, ydayOf]
  omega

/-! ## What the formatter writes -/

theorem digitChar_spec (k : Nat) (hk : k < 10) :
    isDecimalDigit (Nat.digitChar k) = true ∧ digitVal (Nat.digitChar k) = k := by
  interval_cases k <;> decide

theorem foldl_decimal (cs : List Char) (x : Int) :
    cs.foldl (fun x c => x * 10 + digitVal c) x =
      x * 10 ^ cs.length + cs.foldl (fun x c => x * 10 + digitVal c) 0 := by
  induction cs generalizing x with
  | nil => simp
  | cons c cs ih =>
    simp only [List.foldl_cons, List.length_cons]
    rw [ih (x * 10 + digitVal c), ih (0 * 10 + digitVal c)]
    ring

theorem decimalValue_cons (c : Char) (cs : List Char) :
    decimalValue (c :: cs) = digitVal c * 10 ^ cs.length + decimalValue cs := by
  simp only [decimalValue, List.foldl_cons]
  rw [foldl_decimal]
  ring

theorem decimalValue_append (as bs : List Char) :
    decimalValue (as ++ bs) = decimalValue as * 10 ^ bs.length + decimalValue bs := by
  simp only [decimalValue, List.foldl_append]
  rw [foldl_decimal]

/-- The digits `Nat.toDigits` writes, in front of digits already written. -/
theorem toDigitsCore_spec (fuel : Nat) :
    ∀ (n : Nat) (ds : List Char), n < fuel → ds.all isDecimalDigit = true →
      (Nat.toDigitsCore 10 fuel n ds).all isDecimalDigit = true ∧
      decimalValue (Nat.toDigitsCore 10 fuel n ds) = n * 10 ^ ds.length + decimalValue ds ∧
      ds.length < (Nat.toDigitsCore 10 fuel n ds).length := by
  induction fuel with
  | zero => intro n ds h; omega
  | succ fuel ih =>
    intro n ds hn hds
    have hd := digitChar_spec (n % 10) (Nat.mod_lt _ (by omega))
    have hall : (Nat.digitChar (n % 10) :: ds).all isDecimalDigit = true := by
      simp only [List.all_cons, hd.1, hds, Bool.and_self]
    simp only [Nat.toDigitsCore]
    by_cases h0 : n / 10 = 0
    · simp only [h0, if_true]
      refine ⟨hall, ?_, by simp⟩
      rw [decimalValue_cons, hd.2]
      have : n % 10 = n := by omega
      rw [this]
    · simp only [h0, if_false]
      obtain ⟨i1, i2, i3⟩ := ih (n / 10) (Nat.digitChar (n % 10) :: ds) (by omega) hall
      refine ⟨i1, ?_, ?_⟩
      · rw [i2, decimalValue_cons, hd.2, List.length_cons, pow_succ]
        have hn2 : (n : Int) = ((n / 10 : Nat) : Int) * 10 + ((n % 10 : Nat) : Int) := by omega
        linear_combination (-(10 : Int) ^ ds.length) * hn2
      · simp only [List.length_cons] at i3
        omega

theorem toDigits_spec (n : Nat) :
    (Nat.toDigits 10 n).all isDecimalDigit = true ∧ decimalValue (Nat.toDigits 10 n) = n ∧
      0 < (Nat.toDigits 10 n).length := by
  obtain ⟨h1, h2, h3⟩ := toDigitsCore_spec (n + 1) n [] (by omega) rfl
  refine ⟨h1, ?_, h3⟩
  rw [Nat.toDigits, h2]
  simp [decimalValue]

theorem replicate_zero_spec (k : Nat) :
    (List.replicate k '0').all isDecimalDigit = true ∧ decimalValue (List.replicate k '0') = 0 := by
  induction k with
  | zero => exact ⟨rfl, rfl⟩
  | succ k ih =>
    rw [List.replicate_succ]
    refine ⟨?_, ?_⟩
    · rw [List.all_cons, ih.1]; rfl
    · rw [decimalValue_cons, ih.2]
      have : digitVal '0' = 0 := by decide
      rw [this]
      ring

/-- What `appendInt` writes for a number that is not negative: digits only, at
least `width` of them, with the number as their value. -/
theorem appendInt_spec (x : Int) (width : Nat) (hx : 0 ≤ x) :
    (appendInt x width).all isDecimalDigit = true ∧ decimalValue (appendInt x width) = x ∧
      width ≤ (appendInt x width).length ∧
      (width = 2 → x < 100 → (appendInt x width).length = 2) := by
  have hneg : ¬ (x < 0) := by omega
  have hu : ((x.natAbs : Nat) : Int) = x := by omega
  unfold appendInt
  simp only [hneg, if_false, List.nil_append]
  by_cases h2 : width = 2 ∧ x.natAbs < 100
  · simp only [h2, and_self, if_true]
    have d1 := digitChar_spec (x.natAbs / 10) (by omega)
    have d2 := digitChar_spec (x.natAbs % 10) (Nat.mod_lt _ (by omega))
    refine ⟨by simp [d1.1, d2.1], ?_, by simp, fun _ _ => by simp⟩
    rw [decimalValue_cons, decimalValue_cons, d1.2, d2.2]
    simp only [List.length_cons, List.length_nil, decimalValue, List.foldl_nil]
    omega
  · simp only [h2, if_false]
    by_cases h4 : width = 4 ∧ x.natAbs < 10000
    · simp only [h4, and_self, if_true]
      have d1 := digitChar_spec (x.natAbs / 1000) (by omega)
      have d2 := digitChar_spec (x.natAbs / 100 % 10) (Nat.mod_lt _ (by omega))
      have d3 := digitChar_spec (x.natAbs / 10 % 10) (Nat.mod_lt _ (by omega))
      have d4 := digitChar_spec (x.natAbs % 10) (Nat.mod_lt _ (by omega))
      refine ⟨by simp [d1.1, d2.1, d3.1, d4.1], ?_, by simp, fun h => by omega⟩
      rw [decimalValue_cons, decimalValue_cons, decimalValue_cons, decimalValue_cons,
        d1.2, d2.2, d3.2, d4.2]
      simp only [List.length_cons, List.length_nil, decimalValue, List.foldl_nil]
      omega
    · simp only [h4, if_false]
      obtain ⟨t1, t2, t3⟩ := toDigits_spec x.natAbs
      obtain ⟨z1, z2⟩ := replicate_zero_spec (width - (Nat.toDigits 10 x.natAbs).length)
      refine ⟨?_, ?_, ?_, ?_⟩
      · rw [List.all_append, z1, t1]; rfl
      · rw [decimalValue_append, z2, t2, hu]; ring
      · rw [List.length_append, List.length_replicate]; omega
      · intro hw hlt
        exact absurd ⟨hw, by omega⟩ h2

theorem ValidYMD_day_le (y m d : Int) (h : ValidYMD y m d) : d ≤ 31 := by
  obtain ⟨hm, hd1, hd2⟩ := h
  obtain ⟨b1, b2, b3, b4, b5, b6, b7⟩ := daysBefore_bounds m hm
  unfold daysIn at hd2
  split_ifs at hd2 <;> omega

/-- The string `formatDate` writes is read back as the same date by the reader
of year, month and day, whatever the number of year digits. -/
theorem writtenDate_formatDate (y m d : Int) (h : ValidYMD y m d) (hy : 0 ≤ y) :
    writtenDate (formatDate y m d) = some (y, m, d) := by
  have hd31 := ValidYMD_day_le y m d h
  obtain ⟨hm, hd1, hd2⟩ := h
  rw [daysIn_eq_monthLength y m hm] at hd2
  obtain ⟨y1, y2, y3, -⟩ := appendInt_spec y 4 hy
  obtain ⟨m1, m2, -, m4⟩ := appendInt_spec m 2 (by omega)
  obtain ⟨d1, d2, -, d4⟩ := appendInt_spec d 2 (by omega)
  have m4 := m4 rfl (by omega)
  have d4 := d4 rfl (by omega)
  have hlen : (appendInt y 4 ++ (appendInt m 2 ++ appendInt d 2)).length =
      (appendInt y 4).length + 4 := by
    simp only [List.length_append, m4, d4]
  have e1 : (appendInt y 4 ++ (appendInt m 2 ++ appendInt d 2)).take
      ((appendInt y 4).length + 4 - 4) = appendInt y 4 :=
    List.take_left' (by omega)
  have e2 : ((appendInt y 4 ++ (appendInt m 2 ++ appendInt d 2)).drop
      ((appendInt y 4).length + 4 - 4)).take 2 = appendInt m 2 := by
    rw [List.drop_left' (by omega)]
    exact List.take_left' m4
  have e3 : (appendInt y 4 ++ (appendInt m 2 ++ appendInt d 2)).drop
      ((appendInt y 4).length + 4 - 2) = appendInt d 2 := by
    rw [← List.append_assoc]
    exact List.drop_left' (by rw [List.length_append, m4]; omega)
  have hall : (appendInt y 4 ++ (appendInt m 2 ++ appendInt d 2)).all isDecimalDigit = true := by
    rw [List.all_append, List.all_append, y1, m1, d1]
    rfl
  simp only [writtenDate, formatDate, hlen, e1, e2, e3, hall, y2, m2, d2, and_true]
  rw [if_pos (by omega), if_pos ⟨hm.1, hm.2, hd1, hd2⟩]

/-- Up to year 9999 the string `formatDate` writes is read back as the same
date by the reader of exactly eight digits. -/
theorem dateOfString_formatDate (y m d : Int) (h : ValidYMD y m d) (hy : 0 ≤ y)
    (hy2 : y ≤ 9999) : dateOfString (formatDate y m d) = some (y, m, d) := by
  have hd31 := ValidYMD_day_le y m d h
  obtain ⟨hm, hd1, hd2⟩ := h
  rw [daysIn_eq_monthLength y m hm] at hd2
  have hyn : ¬ (y < 0) := by omega
  have hmn : ¬ (m < 0) := by omega
  have hdn : ¬ (d < 0) := by omega
  have ey : appendInt y 4 = [Nat.digitChar (y.natAbs / 1000), Nat.digitChar (y.natAbs / 100 % 10),
      Nat.digitChar (y.natAbs / 10 % 10), Nat.digitChar (y.natAbs % 10)] := by
    unfold appendInt
    simp only [hyn, if_false, List.nil_append]
    rw [if_neg (by simp), if_pos ⟨trivial, by omega⟩]
  have em : appendInt m 2 = [Nat.digitChar (m.natAbs / 10), Nat.digitChar (m.natAbs % 10)] := by
    unfold appendInt
    simp only [hmn, if_false, List.nil_append]
    rw [if_pos ⟨trivial, by omega⟩]
  have ed : appendInt d 2 = [Nat.digitChar (d.natAbs / 10), Nat.digitChar (d.natAbs % 10)] := by
    unfold appendInt
    simp only [hdn, if_false, List.nil_append]
    rw [if_pos ⟨trivial, by omega⟩]
  have a1 := digitChar_spec (y.natAbs / 1000) (by omega)
  have a2 := digitChar_spec (y.natAbs / 100 % 10) (Nat.mod_lt _ (by omega))
  have a3 := digitChar_spec (y.natAbs / 10 % 10) (Nat.mod_lt _ (by omega))
  have a4 := digitChar_spec (y.natAbs % 10) (Nat.mod_lt _ (by omega))
  have a5 := digitChar_spec (m.natAbs / 10) (by omega)
  have a6 := digitChar_spec (m.natAbs % 10) (Nat.mod_lt _ (by omega))
  have a7 := digitChar_spec (d.natAbs / 10) (by omega)
  have a8 := digitChar_spec (d.natAbs % 10) (Nat.mod_lt _ (by omega))
  have vy : 1000 * digitVal (Nat.digitChar (y.natAbs / 1000)) +
      100 * digitVal (Nat.digitChar (y.natAbs / 100 % 10)) +
      10 * digitVal (Nat.digitChar (y.natAbs / 10 % 10)) +
      digitVal (Nat.digitChar (y.natAbs % 10)) = y := by
    rw [a1.2, a2.2, a3.2, a4.2]; omega
  have vm : 10 * digitVal (Nat.digitChar (m.natAbs / 10)) +
      digitVal (Nat.digitChar (m.natAbs % 10)) = m := by
    rw [a5.2, a6.2]; omega
  have vd : 10 * digitVal (Nat.digitChar (d.natAbs / 10)) +
      digitVal (Nat.digitChar (d.natAbs % 10)) = d := by
    rw [a7.2, a8.2]; omega
  simp only [dateOfString, formatDate, ey, em, ed, List.cons_append, List.nil_append,
    List.all_cons, List.all_nil, a1.1, a2.1, a3.1, a4.1, a5.1, a6.1, a7.1, a8.1, Bool.and_self,
    if_true, vy, vm, vd]
  rw [if_pos ⟨hm.1, hm.2, hd1, hd2⟩]

theorem daysSinceEpoch_mono (a b : Int) (h : a ≤ b) : daysSinceEpoch a ≤ daysSinceEpoch b := by
  obtain ⟨n, rfl⟩ : ∃ n : Nat, b = a + n := ⟨(b - a).toNat, by omega⟩
  clear h
  induction n with
  | zero => simp
  | succ n ih =>
    have hs := daysSinceEpoch_succ (a + n)
    have hy : 365 ≤ yearLen (a + n) := by unfold yearLen; split <;> omega
    have e : a + ((n + 1 : Nat) : Int) = a + n + 1 := by push_cast; ring
    rw [e]
    omega

/-- A real date on or after 1 January of year 0 has a year that is not
negative. -/
theorem year_nonneg_of_dayNumberOf (y m d : Int) (h : ValidYMD y m d)
    (hN : daysSinceEpoch 0 ≤ dayNumberOf y m d) : 0 ≤ y := by
  by_contra hy
  have hr := ydayOf_range y m d h
  have hs := daysSinceEpoch_succ y
  have hmono := daysSinceEpoch_mono (y + 1) 0 (by omega)
  unfold dayNumberOf at hN
  omega

theorem dayNumberOf_ge_epoch (Y M D : Int) (h : ValidYMD Y M D) (hY : 0 ≤ Y) :
    daysSinceEpoch 0 ≤ dayNumberOf Y M D := by
  have hr := ydayOf_range Y M D h
  have hmono := daysSinceEpoch_mono 0 Y hY
  unfold dayNumberOf
  omega

/-- The string written for the midnight of a day on or after 1 January of
year 0 is `formatDate` of a real date with that day number. -/
theorem Format_midnight_day (N : Int) (hN : daysSinceEpoch 0 ≤ N) :
    ∃ y m d : Int, (midnight N).Format = formatDate y m d ∧ ValidYMD y m d ∧ 0 ≤ y ∧
      dayNumberOf y m d = N := by
  obtain ⟨hv, hd⟩ := (midnight N).date_spec
  have e : (midnight N).sec / 86400 = N := by
    simp only [midnight]
    omega
  rw [e] at hd
  exact ⟨(midnight N).date.1, (midnight N).date.2.1, (midnight N).date.2.2, rfl, hv,
    year_nonneg_of_dayNumberOf _ _ _ hv (by rw [hd]; exact hN), hd⟩

/-- A string the eight-digit reader accepts has eight characters. -/
theorem dateOfString_length (s : String) (ymd : Int × Int × Int)
    (h : dateOfString s = some ymd) : s.length = 8 := by
  unfold dateOfString at h
  split at h
  · rename_i hs
    rw [String.length, hs]
    rfl
  · exact absurd h (by simp)

/-- The decimal numeral of an interval up to 400 is read back by `Atoi`. -/
theorem Atoi_decimal : ∀ k : Nat, k < 401 → Atoi (toString k).data = some (k : Int) := by
  set_option maxRecDepth 100000 in decide

/-! ## The claims -/

/-- C1 (daily rule, exact result). For a base string that writes the real
calendar date `Y-M-D`, an interval `k` with `1 ≤ k ≤ 400` written in decimal
after "d ", and any reference instant, `NextDate` succeeds with a string `r`
that writes a real calendar date `y-m-d` (read back by `writtenDate`, and by the
eight-digit reader `dateOfString` when `y ≤ 9999`) lying `n * k` days after the
base date, where `n ≥ 1` is the least number for which that day lies strictly
after the calendar day of the reference.  The returned day is always later than
the base day itself. -/
theorem NextDate_daily_exact (now : Time) (dateStr : String) (Y M D : Int) (k : Nat)
    (hB : dateOfString dateStr = some (Y, M, D)) (h1 : 1 ≤ k) (h400 : k ≤ 400) :
    ∃ (n : Nat) (r : String) (y m d : Int), 1 ≤ n ∧
      NextDate now dateStr ("d " ++ toString k) = .ok r ∧
      r = (Date Y M (D + n * k) 0 0 0 0).Format ∧
      writtenDate r = some (y, m, d) ∧
      (y ≤ 9999 → dateOfString r = some (y, m, d)) ∧
      (Date y m d 0 0 0 0).dayNumber = (Date Y M D 0 0 0 0).dayNumber + n * k ∧
      (Date Y M (D + n * k) 0 0 0 0).dayNumber = (Date Y M D 0 0 0 0).dayNumber + n * k ∧
      now.dayNumber < (Date Y M D 0 0 0 0).dayNumber + n * k ∧
      (∀ i : Nat, 1 ≤ i → i < n →
        (Date Y M D 0 0 0 0).dayNumber + i * k ≤ now.dayNumber) ∧
      (Date Y M D 0 0 0 0).dayNumber < (Date Y M (D + n * k) 0 0 0 0).dayNumber := by
  obtain ⟨hv, hY0, -⟩ := dateOfString_valid dateStr Y M D hB
  have hm := hv.1
  have hs := Atoi_decimal k (by omega)
  obtain ⟨n, hn, hgt, hmin⟩ :=
    exists_least_daily now.dayNumber (dayNumberOf Y M D) k (by omega)
  have hpos : (0 : Int) < n * k := by positivity
  have hbase := dayNumberOf_ge_epoch Y M D hv hY0
  obtain ⟨y, m, d, hfmt, hvy, hy0, hday⟩ :=
    Format_midnight_day (dayNumberOf Y M D + n * k) (by omega)
  have hF : (Date Y M (D + n * k) 0 0 0 0).Format = formatDate y m d := by
    rw [Date_midnight Y M _ hm, dayNumberOf_add_days, hfmt]
  refine ⟨n, (Date Y M (D + n * k) 0 0 0 0).Format, y, m, d, hn, ?_, rfl, ?_, ?_, ?_, ?_, ?_,
    ?_, ?_⟩
  · rw [NextDate_daily_ok now dateStr (toString k) Y M D k hB hs (by omega) (by omega) n hn
        hgt hmin,
      Date_midnight Y M _ hm, dayNumberOf_add_days]
  · rw [hF]; exact writtenDate_formatDate y m d hvy hy0
  · intro hy
    rw [hF]; exact dateOfString_formatDate y m d hvy hy0 hy
  · rw [Date_dayNumber y m d hvy.1, Date_dayNumber Y M _ hm, hday]
  · rw [Date_dayNumber Y M _ hm, Date_dayNumber Y M _ hm, dayNumberOf_add_days]
  · rw [Date_dayNumber Y M _ hm]; exact hgt
  · intro i hi1 hi2
    rw [Date_dayNumber Y M _ hm]
    exact hmin i hi1 hi2
  · rw [Date_dayNumber Y M _ hm, Date_dayNumber Y M _ hm, dayNumberOf_add_days]
    omega

/-- Witness of C1: base 20240101, rule "d 7", reference 2024-01-15 (late in the
day) gives 20240122; the candidate 20240115 equals the reference day and is
advanced once more. -/
theorem NextDate_daily_exact_witness :
    dateOfString "20240101" = some (2024, 1, 1) ∧ ("d " ++ toString 7 : String) = "d 7" ∧
      NextDate (Date 2024 1 15 23 59 59 999999999) "20240101" "d 7" = .ok "20240122" ∧
      dateOfString "20240122" = some (2024, 1, 22) := by
  refine ⟨by decide, by decide, ?_, by decide⟩
  obtain ⟨n, r, y, m, d, hn, hres, hr, -, -, -, -, hgt, hmin, -⟩ :=
    NextDate_daily_exact (Date 2024 1 15 23 59 59 999999999) "20240101" 2024 1 1 7
      (by decide) (by decide) (by decide)
  have e : (Date 2024 1 15 23 59 59 999999999).dayNumber =
      (Date 2024 1 1 0 0 0 0).dayNumber + 14 := by decide
  rw [e] at hgt hmin
  have hn3 : n = 3 := by
    rcases Nat.lt_trichotomy n 3 with h | h | h
    · omega
    · exact h
    · have := hmin 3 (by omega) h
      omega
  subst hn3
  have er : ("d " ++ toString 7 : String) = "d 7" := by decide
  have hr2 : r = "20240122" := hr.trans (by decide)
  rw [er, hr2] at hres
  exact hres

/-- C2 (yearly rule, ordinary dates). For a base string that writes the real
calendar date `Y-M-D` other than 29 February and any reference instant,
`NextDate` succeeds on the rule "y" with a string `r` that writes the date of
year `Y + n` with the same month and day (read back by `writtenDate`, and by
the eight-digit reader `dateOfString` when `Y + n ≤ 9999`), where `n ≥ 1` is the
least number for which that date lies strictly after the calendar day of the
reference; that date exists as written (no normalisation changes month or
day). -/
theorem NextDate_yearly_exact (now : Time) (dateStr : String) (Y M D : Int)
    (hB : dateOfString dateStr = some (Y, M, D)) (hne : ¬ (M = 2 ∧ D = 29)) :
    ∃ (n : Nat) (r : String), 1 ≤ n ∧
      NextDate now dateStr "y" = .ok r ∧
      r = formatDate (Y + n) M D ∧
      writtenDate r = some (Y + n, M, D) ∧
      (Y + n ≤ 9999 → dateOfString r = some (Y + n, M, D)) ∧
      (Date (Y + n) M D 0 0 0 0).date = (Y + n, M, D) ∧
      now.dayNumber < (Date (Y + n) M D 0 0 0 0).dayNumber ∧
      (∀ i : Nat, 1 ≤ i → i < n → (Date (Y + i) M D 0 0 0 0).dayNumber ≤ now.dayNumber) := by
  obtain ⟨hv, hY0, -⟩ := dateOfString_valid dateStr Y M D hB
  obtain ⟨n, hn, hgt, hmin⟩ := exists_least_yearly now.dayNumber Y M D
  have hvn := ValidYMD_other_year Y (Y + n) M D hv hne
  refine ⟨n, formatDate (Y + n) M D, hn,
    NextDate_yearly_ok now dateStr Y M D hB hne n hn hgt hmin, rfl,
    writtenDate_formatDate _ M D hvn (by omega),
    fun hy => dateOfString_formatDate _ M D hvn (by omega) hy, ?_, ?_, ?_⟩
  · rw [Date_midnight _ M D hv.1]
    exact midnight_date _ M D hvn
  · rw [Date_dayNumber _ M D hv.1]; exact hgt
  · intro i hi1 hi2
    rw [Date_dayNumber _ M D hv.1]
    exact hmin i hi1 hi2

/-- Witness of C2: base 20240126, reference 2026-03-01 gives 20270126. -/
theorem NextDate_yearly_exact_witness :
    dateOfString "20240126" = some (2024, 1, 26) ∧ ¬ ((1 : Int) = 2 ∧ (26 : Int) = 29) ∧
      NextDate (Date 2026 3 1 8 0 0 0) "20240126" "y" = .ok "20270126" ∧
      dateOfString "20270126" = some (2027, 1, 26) := by
  refine ⟨by decide, by decide, ?_, by decide⟩
  obtain ⟨n, r, hn, hres, hr, -, -, -, hgt, hmin⟩ :=
    NextDate_yearly_exact (Date 2026 3 1 8 0 0 0) "20240126" 2024 1 26 (by decide) (by decide)
  have hn3 : n = 3 := by
    rcases Nat.lt_trichotomy n 3 with h | h | h
    · have h12 : n = 1 ∨ n = 2 := by omega
      rcases h12 with rfl | rfl
      · exact absurd hgt (by decide)
      · exact absurd hgt (by decide)
    · exact h
    · exact absurd (hmin 3 (by omega) h) (by decide)
  subst hn3
  have hr2 : r = "20270126" := hr.trans (by decide)
  rw [hr2] at hres
  exact hres

/-- C3 (yearly rule, leap day into a year that is not leap). For a base string
that writes 29 February of year `Y` and a reference whose calendar day is
before 1 March of year `Y + 1`, `NextDate` returns a string of eight digits that
writes 1 March of year `Y + 1` (so not 28 February). -/
theorem NextDate_yearly_leap_day (now : Time) (dateStr : String) (Y : Int)
    (hB : dateOfString dateStr = some (Y, 2, 29))
    (href : now.dayNumber < (Date (Y + 1) 3 1 0 0 0 0).dayNumber) :
    ∃ r : String, NextDate now dateStr "y" = .ok r ∧ r = formatDate (Y + 1) 3 1 ∧
      dateOfString r = some (Y + 1, 3, 1) ∧ writtenDate r = some (Y + 1, 3, 1) ∧
      r.length = 8 := by
  obtain ⟨hv, hY0, hY1⟩ := dateOfString_valid dateStr Y 2 29 hB
  have hleap := ValidYMD_feb29_leap Y hv
  have hY2 : Y + 1 ≤ 9999 := by
    simp only [isLeap, Bool.and_eq_true, beq_iff_eq] at hleap
    omega
  rw [Date_dayNumber _ 3 1 (by omega)] at href
  have h := NextDate_yearly_feb29 now dateStr Y hB 1 (by omega)
    (by simpa using href) (by intro m h1 h2; omega)
  have hd := dateOfString_formatDate (Y + 1) 3 1 (ValidYMD_mar1 _) (by omega) hY2
  refine ⟨formatDate (Y + 1) 3 1, by simpa using h, rfl, hd,
    writtenDate_formatDate (Y + 1) 3 1 (ValidYMD_mar1 _) (by omega), ?_⟩
  exact dateOfString_length _ _ hd

/-- Witness of C3: base 20200229 with reference 2021-01-01 gives 20210301. -/
theorem NextDate_yearly_leap_day_witness :
    dateOfString "20200229" = some (2020, 2, 29) ∧
      (Date 2021 1 1 0 0 0 0).dayNumber < (Date (2020 + 1) 3 1 0 0 0 0).dayNumber ∧
      NextDate (Date 2021 1 1 0 0 0 0) "20200229" "y" = .ok "20210301" := by
  refine ⟨by decide, by decide, ?_⟩
  obtain ⟨r, hres, hr, -⟩ :=
    NextDate_yearly_leap_day (Date 2021 1 1 0 0 0 0) "20200229" 2020 (by decide) (by decide)
  have hr2 : r = "20210301" := hr.trans (by decide)
  rw [hr2] at hres
  exact hres

/-- Counterexample to C4 as stated: base 20200229, rule "y", reference
2023-06-01.  The returned date 20240301 lies in the leap year 2024 and is
1 March, not 29 February. -/
theorem NextDate_leap_target_counterexample :
    NextDate (Date 2023 6 1 0 0 0 0) "20200229" "y" = .ok "20240301" ∧
      dateOfString "20240301" = some (2024, 3, 1) ∧ isLeap 2024 = true := by
  refine ⟨?_, by decide, by decide⟩
  rw [NextDate_yearly_feb29 (Date 2023 6 1 0 0 0 0) "20200229" 2020 (by decide) 4 (by omega)
    (by decide) (by
      intro m h1 h2
      have h : m = 1 ∨ m = 2 ∨ m = 3 := by omega
      rcases h with rfl | rfl | rfl <;> decide)]
  exact congrArg Except.ok (by decide)

/-- C4, amended. For a base string that writes 29 February of year `Y` and any
reference instant, `NextDate` on the rule "y" returns a string `r` that writes
1 March of year `Y + n` (read back by `writtenDate`, and by the eight-digit
reader `dateOfString` when `Y + n ≤ 9999`), where `n ≥ 1` is the least number
for which that 1 March lies strictly after the calendar day of the reference;
this holds whether or not `Y + n` is a leap year, and 1 March exists in every
year. -/
theorem NextDate_yearly_leap_base (now : Time) (dateStr : String) (Y : Int)
    (hB : dateOfString dateStr = some (Y, 2, 29)) :
    ∃ (n : Nat) (r : String), 1 ≤ n ∧
      NextDate now dateStr "y" = .ok r ∧
      r = formatDate (Y + n) 3 1 ∧
      writtenDate r = some (Y + n, 3, 1) ∧
      (Y + n ≤ 9999 → dateOfString r = some (Y + n, 3, 1)) ∧
      (Date (Y + n) 3 1 0 0 0 0).date = (Y + n, 3, 1) ∧
      now.dayNumber < (Date (Y + n) 3 1 0 0 0 0).dayNumber ∧
      (∀ i : Nat, 1 ≤ i → i < n → (Date (Y + i) 3 1 0 0 0 0).dayNumber ≤ now.dayNumber) := by
  obtain ⟨hv, hY0, -⟩ := dateOfString_valid dateStr Y 2 29 hB
  obtain ⟨n, hn, hgt, hmin⟩ := exists_least_yearly now.dayNumber Y 3 1
  refine ⟨n, formatDate (Y + n) 3 1, hn,
    NextDate_yearly_feb29 now dateStr Y hB n hn hgt hmin, rfl,
    writtenDate_formatDate _ 3 1 (ValidYMD_mar1 _) (by omega),
    fun hy => dateOfString_formatDate _ 3 1 (ValidYMD_mar1 _) (by omega) hy, ?_, ?_, ?_⟩
  · rw [Date_midnight _ 3 1 (by omega)]
    exact midnight_date _ 3 1 (ValidYMD_mar1 _)
  · rw [Date_dayNumber _ 3 1 (by omega)]; exact hgt
  · intro i hi1 hi2
    rw [Date_dayNumber _ 3 1 (by omega)]
    exact hmin i hi1 hi2

/-- Witness of the amended C4: base 20240229 with reference 2027-12-31 gives
1 March of the leap year 2028. -/
theorem NextDate_yearly_leap_base_witness :
    dateOfString "20240229" = some (2024, 2, 29) ∧ isLeap 2028 = true ∧
      NextDate (Date 2027 12 31 0 0 0 0) "20240229" "y" = .ok "20280301" ∧
      dateOfString "20280301" = some (2028, 3, 1) := by
  refine ⟨by decide, by decide, ?_, by decide⟩
  obtain ⟨n, r, hn, hres, hr, -, -, -, hgt, hmin⟩ :=
    NextDate_yearly_leap_base (Date 2027 12 31 0 0 0 0) "20240229" 2024 (by decide)
  have hn4 : n = 4 := by
    rcases Nat.lt_trichotomy n 4 with h | h | h
    · have h123 : n = 1 ∨ n = 2 ∨ n = 3 := by omega
      rcases h123 with rfl | rfl | rfl
      · exact absurd hgt (by decide)
      · exact absurd hgt (by decide)
      · exact absurd hgt (by decide)
    · exact h
    · exact absurd (hmin 4 (by omega) h) (by decide)
  subst hn4
  have hr2 : r = "20280301" := hr.trans (by decide)
  rw [hr2] at hres
  exact hres

/-- C5 (daily interval validation). For a base string that writes a real
calendar date, `NextDate` on the rule `"d " ++ s` succeeds exactly when
`strconv.Atoi` reads `s` as an integer `n` with `1 ≤ n ≤ 400`; in every other
case it returns one of the two interval errors. -/
theorem NextDate_interval_validation (now : Time) (dateStr s : String) (Y M D : Int)
    (hB : dateOfString dateStr = some (Y, M, D)) :
    ((∃ r, NextDate now dateStr ("d " ++ s) = .ok r) ↔
        ∃ n, Atoi s.data = some n ∧ 1 ≤ n ∧ n ≤ 400) ∧
      ((¬ ∃ n, Atoi s.data = some n ∧ 1 ≤ n ∧ n ≤ 400) →
        NextDate now dateStr ("d " ++ s) = .error .invalidInterval ∨
        NextDate now dateStr ("d " ++ s) = .error .intervalTooLarge) := by
  cases ha : Atoi s.data with
  | none =>
    have e := NextDate_daily_none now dateStr s Y M D hB ha
    refine ⟨⟨?_, ?_⟩, fun _ => Or.inl e⟩
    · rintro ⟨r, hr⟩
      rw [e] at hr
      exact absurd hr (by simp)
    · rintro ⟨n, hn, -⟩
      exact absurd hn (by simp)
  | some k =>
    have e := NextDate_daily_some now dateStr s Y M D k hB ha
    by_cases hk : k ≤ 0
    · rw [dif_pos hk] at e
      refine ⟨⟨?_, ?_⟩, fun _ => Or.inl e⟩
      · rintro ⟨r, hr⟩
        rw [e] at hr
        exact absurd hr (by simp)
      · rintro ⟨n, hn, h1, -⟩
        simp only [Option.some.injEq] at hn
        omega
    · rw [dif_neg hk] at e
      by_cases hk2 : k > 400
      · rw [if_pos hk2] at e
        refine ⟨⟨?_, ?_⟩, fun _ => Or.inr e⟩
        · rintro ⟨r, hr⟩
          rw [e] at hr
          exact absurd hr (by simp)
        · rintro ⟨n, hn, -, h2⟩
          simp only [Option.some.injEq] at hn
          omega
      · rw [if_neg hk2] at e
        have hex : ∃ n, some k = some n ∧ 1 ≤ n ∧ n ≤ 400 := ⟨k, rfl, by omega, by omega⟩
        exact ⟨⟨fun _ => hex, fun _ => ⟨_, e⟩⟩, fun h => absurd hex h⟩

/-- Witness of C5: on the base 20240101 the rules "d 1" and "d 400" are
accepted, and "d 0", "d 401", "d -3", "d abc" and "d " are rejected with an
interval error. -/
theorem NextDate_interval_validation_witness :
    dateOfString "20240101" = some (2024, 1, 1) ∧
      (∃ r, NextDate (Date 2024 6 1 0 0 0 0) "20240101" "d 1" = .ok r) ∧
      (∃ r, NextDate (Date 2024 6 1 0 0 0 0) "20240101" "d 400" = .ok r) ∧
      (¬ ∃ r, NextDate (Date 2024 6 1 0 0 0 0) "20240101" "d 0" = .ok r) ∧
      (¬ ∃ r, NextDate (Date 2024 6 1 0 0 0 0) "20240101" "d 401" = .ok r) ∧
      (¬ ∃ r, NextDate (Date 2024 6 1 0 0 0 0) "20240101" "d -3" = .ok r) ∧
      (¬ ∃ r, NextDate (Date 2024 6 1 0 0 0 0) "20240101" "d abc" = .ok r) ∧
      (¬ ∃ r, NextDate (Date 2024 6 1 0 0 0 0) "20240101" "d " = .ok r) := by
  have hB : dateOfString "20240101" = some (2024, 1, 1) := by decide
  refine ⟨hB, ?_, ?_, ?_, ?_, ?_, ?_, ?_⟩
  · exact (NextDate_interval_validation (Date 2024 6 1 0 0 0 0) "20240101" "1" 2024 1 1 hB).1.mpr
      ⟨1, by decide, by decide, by decide⟩
  · exact (NextDate_interval_validation (Date 2024 6 1 0 0 0 0) "20240101" "400" 2024 1 1 hB).1.mpr
      ⟨400, by decide, by decide, by decide⟩
  · intro h
    obtain ⟨n, hn, h1, h2⟩ :=
      (NextDate_interval_validation (Date 2024 6 1 0 0 0 0) "20240101" "0" 2024 1 1 hB).1.mp h
    have e : Atoi "0".data = some 0 := by decide
    rw [e] at hn
    simp only [Option.some.injEq] at hn
    omega
  · intro h
    obtain ⟨n, hn, h1, h2⟩ :=
      (NextDate_interval_validation (Date 2024 6 1 0 0 0 0) "20240101" "401" 2024 1 1 hB).1.mp h
    have e : Atoi "401".data = some 401 := by decide
    rw [e] at hn
    simp only [Option.some.injEq] at hn
    omega
  · intro h
    obtain ⟨n, hn, h1, h2⟩ :=
      (NextDate_interval_validation (Date 2024 6 1 0 0 0 0) "20240101" "-3" 2024 1 1 hB).1.mp h
    have e : Atoi "-3".data = some (-3) := by decide
    rw [e] at hn
    simp only [Option.some.injEq] at hn
    omega
  · intro h
    obtain ⟨n, hn, h1, h2⟩ :=
      (NextDate_interval_validation (Date 2024 6 1 0 0 0 0) "20240101" "abc" 2024 1 1 hB).1.mp h
    have e : Atoi "abc".data = none := by decide
    rw [e] at hn
    exact absurd hn (by simp)
  · intro h
    obtain ⟨n, hn, h1, h2⟩ :=
      (NextDate_interval_validation (Date 2024 6 1 0 0 0 0) "20240101" "" 2024 1 1 hB).1.mp h
    have e : Atoi "".data = none := by decide
    rw [e] at hn
    exact absurd hn (by simp)

/-- C6 (blank rule). A rule that is empty or holds white space only is
rejected with the empty-rule error, whatever the base string (also one that
writes no date) and the reference instant. -/
theorem NextDate_blank_rule (now : Time) (dateStr repeatRule : String)
    (hblank : ∀ c ∈ repeatRule.data, IsSpace c = true) :
    NextDate now dateStr repeatRule = .error .emptyRepeat :=
  NextDate_blank now dateStr repeatRule hblank

/-- Witness of C6: the rule of a blank, a tab and a line feed, on a base string
that writes no date. -/
theorem NextDate_blank_rule_witness :
    (∀ c ∈ (" \t\n" : String).data, IsSpace c = true) ∧
      NextDate (Date 2024 1 1 0 0 0 0) "no date" " \t\n" = .error .emptyRepeat :=
  ⟨by decide, NextDate_blank_rule (Date 2024 1 1 0 0 0 0) "no date" " \t\n" (by decide)⟩

/-- C7 (invalid base date). When the rule is not blank and the base string
does not write a real calendar date as eight digits `YYYYMMDD`, `NextDate`
returns the parse error of the base date. -/
theorem NextDate_invalid_base (now : Time) (dateStr repeatRule : String)
    (hrule : ¬ ∀ c ∈ repeatRule.data, IsSpace c = true)
    (hbase : dateOfString dateStr = none) :
    NextDate now dateStr repeatRule = .error .parseError :=
  NextDate_bad_date now dateStr repeatRule
    (fun hx => hrule ((TrimSpace_eq_nil_iff _).mp hx)) hbase

/-- Witness of C7: "20230229", "20241301", "2024011" and "2024-01-01" are all
rejected as base dates. -/
theorem NextDate_invalid_base_witness :
    (¬ ∀ c ∈ ("y" : String).data, IsSpace c = true) ∧
      dateOfString "20230229" = none ∧
      NextDate (Date 2024 1 1 0 0 0 0) "20230229" "y" = .error .parseError ∧
      NextDate (Date 2024 1 1 0 0 0 0) "20241301" "d 7" = .error .parseError ∧
      NextDate (Date 2024 1 1 0 0 0 0) "2024011" "y" = .error .parseError ∧
      NextDate (Date 2024 1 1 0 0 0 0) "2024-01-01" "d 7" = .error .parseError :=
  ⟨by decide, by decide,
    NextDate_invalid_base (Date 2024 1 1 0 0 0 0) "20230229" "y" (by decide) (by decide),
    NextDate_invalid_base (Date 2024 1 1 0 0 0 0) "20241301" "d 7" (by decide) (by decide),
    NextDate_invalid_base (Date 2024 1 1 0 0 0 0) "2024011" "y" (by decide) (by decide),
    NextDate_invalid_base (Date 2024 1 1 0 0 0 0) "2024-01-01" "d 7" (by decide) (by decide)⟩

/-- C8 at its failing input: on the accepted base 99991231 with the rule "d 1"
`NextDate` succeeds with the nine-character string "100000101", which writes
no date and is rejected as a base by a further call. -/
theorem NextDate_year_overflow :
    dateOfString "99991231" = some (9999, 12, 31) ∧
      NextDate (Date 2024 1 1 0 0 0 0) "99991231" "d 1" = .ok "100000101" ∧
      ("100000101" : String).length = 9 ∧
      dateOfString "100000101" = none ∧
      NextDate (Date 2024 1 1 0 0 0 0) "100000101" "d 1" = .error .parseError := by
  refine ⟨by decide, ?_, by decide, by decide, ?_⟩
  · have h := NextDate_daily_ok (Date 2024 1 1 0 0 0 0) "99991231" "1" 9999 12 31 1 (by decide)
      (by decide) (by decide) (by decide) 1 (by omega) (by decide) (by intro m h1 h2; omega)
    exact h.trans (congrArg Except.ok (by decide))
  · exact NextDate_bad_date (Date 2024 1 1 0 0 0 0) "100000101" "d 1" (by decide) (by decide)

/-- C9 (only the calendar date of the reference matters). Two reference
instants with the same calendar date give the same outcome, a date or an
error, for every base string and every rule. -/
theorem NextDate_reference_date_only (now1 now2 : Time) (dateStr repeatRule : String)
    (hsame : now1.date = now2.date) :
    NextDate now1 dateStr repeatRule = NextDate now2 dateStr repeatRule :=
  NextDate_congr now1 now2 dateStr repeatRule (dayNumber_of_date_eq now1 now2 hsame)

/-- Witness of C9: the references 00:00:00 and 23:59:59 of 15 January 2024 give
the same result. -/
theorem NextDate_reference_date_only_witness :
    (Date 2024 1 15 0 0 0 0).date = (Date 2024 1 15 23 59 59 0).date ∧
      (Date 2024 1 15 0 0 0 0) ≠ (Date 2024 1 15 23 59 59 0) ∧
      NextDate (Date 2024 1 15 0 0 0 0) "20240101" "d 7" =
        NextDate (Date 2024 1 15 23 59 59 0) "20240101" "d 7" :=
  ⟨by decide, by decide,
    NextDate_reference_date_only (Date 2024 1 15 0 0 0 0) (Date 2024 1 15 23 59 59 0)
      "20240101" "d 7" (by decide)⟩

/-- Counterexample to C10 as stated: the rule "w 1" on a base string that
writes no date fails with the parse error of the base date, not with the
unsupported-rule error. -/
theorem NextDate_rule_first_counterexample :
    NextDate (Date 2024 1 1 0 0 0 0) "2024-01-01" "w 1" = .error .parseError ∧
      NextDate (Date 2024 1 1 0 0 0 0) "2024-01-01" "w 1" ≠ .error .unsupportedRepeat := by
  have h := NextDate_bad_date (Date 2024 1 1 0 0 0 0) "2024-01-01" "w 1" (by decide) (by decide)
  refine ⟨h, ?_⟩
  rw [h]
  simp

/-- C10, amended. For a rule that is not blank, is not "y" and does not begin
with "d ": when the base string writes a real calendar date `NextDate` fails
with the unsupported-rule error, and when it writes none `NextDate` fails with
the parse error of the base date (the base date is parsed before the shape of
the rule is looked at). -/
theorem NextDate_unsupported_rule (now : Time) (dateStr repeatRule : String)
    (hrule : ¬ ∀ c ∈ repeatRule.data, IsSpace c = true)
    (hy : repeatRule ≠ "y") (hd : ¬ ∃ s : String, repeatRule = "d " ++ s) :
    ((∃ ymd, dateOfString dateStr = some ymd) →
        NextDate now dateStr repeatRule = .error .unsupportedRepeat) ∧
      (dateOfString dateStr = none →
        NextDate now dateStr repeatRule = .error .parseError) := by
  have hr : TrimSpace repeatRule.data ≠ [] := fun hx => hrule ((TrimSpace_eq_nil_iff _).mp hx)
  have hp : HasPrefix repeatRule.data ['d', ' '] = false := by
    rw [Bool.eq_false_iff]
    exact fun hx => hd (daily_of_HasPrefix repeatRule hx)
  constructor
  · rintro ⟨⟨Y, M, D⟩, hB⟩
    exact NextDate_unsupported now dateStr repeatRule Y M D hr hB hp hy
  · exact NextDate_bad_date now dateStr repeatRule hr

/-- Witness of the amended C10: the rule "w 1" on the base 20240101 and on a
base string that writes no date. -/
theorem NextDate_unsupported_rule_witness :
    (¬ ∀ c ∈ ("w 1" : String).data, IsSpace c = true) ∧ ("w 1" : String) ≠ "y" ∧
      (¬ ∃ s : String, ("w 1" : String) = "d " ++ s) ∧
      NextDate (Date 2024 1 1 0 0 0 0) "20240101" "w 1" = .error .unsupportedRepeat ∧
      NextDate (Date 2024 1 1 0 0 0 0) "2024-01-01" "w 1" = .error .parseError := by
  have h3 : ¬ ∃ s : String, ("w 1" : String) = "d " ++ s := by
    rintro ⟨s, hs⟩
    have := congrArg String.data hs
    have h0 : ("w 1" : String).data = ['w', ' ', '1'] := rfl
    rw [daily_data, h0] at this
    exact absurd (List.cons.inj this).1 (by decide)
  have h := NextDate_unsupported_rule (Date 2024 1 1 0 0 0 0) "20240101" "w 1" (by decide)
    (by decide) h3
  have h2 := NextDate_unsupported_rule (Date 2024 1 1 0 0 0 0) "2024-01-01" "w 1" (by decide)
    (by decide) h3
  exact ⟨by decide, by decide, h3, h.1 ⟨(2024, 1, 1), by decide⟩, h2.2 (by decide)⟩

end Utils
